import Mathlib

/-!
Verification development for the earthstar-data schema layer: a shallow
embedding of the TypeScript sources (lib/type.ts, lib/live.ts, lib/atoms.ts,
lib/object.ts, lib/util.ts, lib/types/collection.ts, lib/types/attachment.ts
and the metadata module) together with proofs about the embedded operations.

Modelling conventions:
- JavaScript strings are modelled as Lean `String`, with character-level
  helper functions (JS string indices are UTF-16 code units; all path and
  codec strings handled by this library are ASCII, where the two notions of
  length and slicing agree with the codepoint-level model used here).
- The earthstar `Replica` (an external collaborator of the library) is
  modelled as the list of its latest documents per path plus an attachment
  blob store, following the capability set the spec requires of it
  (point lookup, prefix query of docs, path query, set, wipe, attachment read).
- Asynchronous concurrent sub-writes (Promise.all) are linearised: the
  sub-writes issued by composite writes target their respective subtrees,
  and the model applies them in the deterministic order the source
  enumerates them.
- Thrown JS errors are modelled with `Except`.
-/

namespace EarthstarData

/-! ## JS string helpers (character-level model) -/

/-- JS `a.startsWith(b)`. -/
def jsStartsWith (s pre : String) : Bool :=
  pre.data.isPrefixOf s.data

/-- JS `a.endsWith(b)`. -/
def jsEndsWith (s suf : String) : Bool :=
  suf.data.isSuffixOf s.data

/-- JS `s.length` (codepoint model). -/
def jsLength (s : String) : Nat :=
  s.data.length

/-- JS `s.substring(n)` (drop the first n characters). -/
def jsDrop (s : String) (n : Nat) : String :=
  ⟨s.data.drop n⟩

/-- JS `s.slice(0, n)` (take the first n characters). -/
def jsTake (s : String) (n : Nat) : String :=
  ⟨s.data.take n⟩

/-- Split a character list at a separator character. -/
def splitCharsOn (sep : Char) : List Char → List Char → List (List Char)
  | [], acc => [acc.reverse]
  | c :: rest, acc =>
    if c = sep then acc.reverse :: splitCharsOn sep rest []
    else splitCharsOn sep rest (c :: acc)

/-- util.ts splitPath: `path.split(sep).filter(Boolean)` with sep a slash:
splits on slashes and drops the empty segments. -/
def splitPath (path : String) : List String :=
  (splitCharsOn '/' path.data []).filterMap
    (fun cs => if cs.isEmpty then none else some ⟨cs⟩)

/-- type.ts getContentPrefix: `path.endsWith(sep) ? path + sep : path` where
sep is a slash. Note the source appends the extra slash exactly when the path
already ends in one. -/
def getContentPrefixPath (path : String) : String :=
  if jsEndsWith path "/" then path ++ "/" else path

/-- JS `s.replace(trailing-slash-regex, empty)`: drop one trailing slash. -/
def dropTrailingSlash (s : String) : String :=
  if jsEndsWith s "/" then ⟨s.data.dropLast⟩ else s

/-! ## Decimal digits (JS String/Number/BigInt codecs on their exact domain) -/

/-- Character for a decimal digit value. -/
def digitChar (d : Nat) : Char :=
  Char.ofNat (48 + d)

/-- Decimal digits of a natural number, most significant first; `fuel`
bounds the recursion and is always instantiated large enough. -/
def natDigitsAux : Nat → Nat → List Char
  | 0, _ => []
  | fuel + 1, n =>
    if n < 10 then [digitChar n]
    else natDigitsAux fuel (n / 10) ++ [digitChar (n % 10)]

/-- Decimal representation of a natural number (as produced by JS
`String(n)` for natural n). -/
def natToString (n : Nat) : String :=
  ⟨natDigitsAux (n + 1) n⟩

/-- JS `String(i)` for an integer: optional minus sign plus decimal digits. -/
def intToString (i : Int) : String :=
  if i < 0 then "-" ++ natToString i.natAbs else natToString i.toNat

/-- Value of a list of decimal digit characters. -/
def digitsToNat (cs : List Char) : Nat :=
  cs.foldl (fun acc c => acc * 10 + (c.toNat - 48)) 0

/-- JS `Number(s)` and `BigInt(s)` restricted to the decimal-integer strings
this library stores (sign followed by digits); other inputs are outside the
modelled domain. -/
def parseJsInt (s : String) : Int :=
  match s.data with
  | '-' :: rest => -(digitsToNat rest : Int)
  | cs => (digitsToNat cs : Int)

/-! ## encodeURIComponent / decodeURIComponent -/

/-- Characters kept verbatim by encodeURIComponent. -/
def isUnreservedURIChar (c : Char) : Bool :=
  c.isAlpha || c.isDigit ||
    c = '-' || c = '_' || c = '.' || c = '!' || c = '~' || c = '*' ||
    c = '\'' || c = '(' || c = ')'

/-- UTF-8 bytes of a character. -/
def utf8Bytes (c : Char) : List Nat :=
  let n := c.toNat
  if n < 128 then [n]
  else if n < 2048 then [192 + n / 64, 128 + n % 64]
  else if n < 65536 then [224 + n / 4096, 128 + (n / 64) % 64, 128 + n % 64]
  else [240 + n / 262144, 128 + (n / 4096) % 64, 128 + (n / 64) % 64, 128 + n % 64]

/-- Upper-case hexadecimal digit. -/
def hexDigitUpper (n : Nat) : Char :=
  if n < 10 then Char.ofNat (48 + n) else Char.ofNat (55 + n)

/-- Percent-escape of one byte. -/
def percentEncodeByte (b : Nat) : List Char :=
  ['%', hexDigitUpper (b / 16), hexDigitUpper (b % 16)]

/-- JS encodeURIComponent: unreserved characters pass through, every other
character is percent-encoded bytewise in UTF-8. -/
def encodeURIComponent (s : String) : String :=
  ⟨(s.data.map (fun c =>
      if isUnreservedURIChar c then [c]
      else ((utf8Bytes c).map percentEncodeByte).flatten)).flatten⟩

/-- Value of a hexadecimal digit character, if it is one. -/
def hexVal (c : Char) : Option Nat :=
  let n := c.toNat
  if 48 ≤ n ∧ n ≤ 57 then some (n - 48)
  else if 65 ≤ n ∧ n ≤ 70 then some (n - 55)
  else if 97 ≤ n ∧ n ≤ 102 then some (n - 87)
  else none

/-- Percent-unescape a character list to a byte sequence: an escape
contributes its byte, any other character contributes its UTF-8 bytes.
Returns none on a malformed escape (JS raises URIError there). -/
def uriBytes : List Char → Option (List Nat)
  | [] => some []
  | '%' :: h :: l :: rest =>
    match hexVal h, hexVal l with
    | some hv, some lv => (uriBytes rest).map (fun bs => (hv * 16 + lv) :: bs)
    | _, _ => none
  | '%' :: _ :: [] => none
  | ['%'] => none
  | c :: rest => (uriBytes rest).map (fun bs => utf8Bytes c ++ bs)

/-- Decode a UTF-8 byte sequence into characters. Returns none on malformed
sequences (where JS would raise URIError, outside the modelled domain). -/
def utf8DecodeBytes : List Nat → Option (List Char)
  | [] => some []
  | b :: rest =>
    if b < 128 then
      (utf8DecodeBytes rest).map (fun cs => Char.ofNat b :: cs)
    else if 192 ≤ b ∧ b < 224 then
      match rest with
      | b2 :: rest' =>
        if 128 ≤ b2 ∧ b2 < 192 then
          (utf8DecodeBytes rest').map
            (fun cs => Char.ofNat ((b - 192) * 64 + (b2 - 128)) :: cs)
        else none
      | _ => none
    else if 224 ≤ b ∧ b < 240 then
      match rest with
      | b2 :: b3 :: rest' =>
        if 128 ≤ b2 ∧ b2 < 192 ∧ 128 ≤ b3 ∧ b3 < 192 then
          (utf8DecodeBytes rest').map
            (fun cs => Char.ofNat ((b - 224) * 4096 + (b2 - 128) * 64 + (b3 - 128)) :: cs)
        else none
      | _ => none
    else if 240 ≤ b ∧ b < 248 then
      match rest with
      | b2 :: b3 :: b4 :: rest' =>
        if 128 ≤ b2 ∧ b2 < 192 ∧ 128 ≤ b3 ∧ b3 < 192 ∧ 128 ≤ b4 ∧ b4 < 192 then
          (utf8DecodeBytes rest').map
            (fun cs =>
              Char.ofNat ((b - 240) * 262144 + (b2 - 128) * 4096 + (b3 - 128) * 64 + (b4 - 128)) :: cs)
        else none
      | _ => none
    else none

/-- JS decodeURIComponent on its well-formed domain. Where JS raises a
URIError (malformed escape or invalid UTF-8) the model returns the input
unchanged; no modelled code path relies on that case. -/
def decodeURIComponent (s : String) : String :=
  match uriBytes s.data with
  | some bs =>
    match utf8DecodeBytes bs with
    | some cs => ⟨cs⟩
    | none => s
  | none => s

/-! ## Proleptic Gregorian calendar, as used by JS Date.prototype.toISOString
and by Date parsing of ISO date-time strings.

A JS Date is its time value: integer milliseconds since the Unix epoch,
valid over |ms| ≤ 8.64e15. The embedding computes the calendar fields with
fuel-bounded scans over per-year and per-month lengths; this produces
exactly the fields toISOString prints (UTC, proleptic Gregorian). -/

/-- Is in-era year index y (0..399, era-aligned so that index 0 is a year
divisible by 400) a leap year? -/
def isLeapYoe (y : Nat) : Bool :=
  y % 4 = 0 && (y % 100 ≠ 0 || y = 0)

/-- Length in days of in-era year y. -/
def yearLen (y : Nat) : Nat :=
  if isLeapYoe y then 366 else 365

/-- First day-of-era of in-era year y (sum of the lengths of years below y). -/
def yearStartSum : Nat → Nat
  | 0 => 0
  | y + 1 => yearStartSum y + yearLen y

/-- Walk years starting at y, peeling whole years off rem while it is at
least the current year length. Returns (year, day-of-year). -/
def yearScan : Nat → Nat → Nat → Nat × Nat
  | 0, y, rem => (y, rem)
  | fuel + 1, y, rem =>
    if rem < yearLen y then (y, rem)
    else yearScan fuel (y + 1) (rem - yearLen y)

/-- Length in days of month m (1..12) for leap flag. -/
def monthLen (m : Nat) (leap : Bool) : Nat :=
  match m with
  | 1 => 31
  | 2 => if leap then 29 else 28
  | 3 => 31
  | 4 => 30
  | 5 => 31
  | 6 => 30
  | 7 => 31
  | 8 => 31
  | 9 => 30
  | 10 => 31
  | 11 => 30
  | _ => 31

/-- First day-of-year of month m (1..12): sum of the lengths of months
below m. -/
def monthStartSum : Nat → Bool → Nat
  | 0, _ => 0
  | 1, _ => 0
  | m + 1, leap => monthStartSum m leap + monthLen m leap

/-- Walk months starting at m, peeling whole months off rem. Returns
(month, day-of-month - 1). -/
def monthScan : Nat → Nat → Nat → Bool → Nat × Nat
  | 0, m, rem, _ => (m, rem)
  | fuel + 1, m, rem, leap =>
    if rem < monthLen m leap then (m, rem)
    else monthScan fuel (m + 1) (rem - monthLen m leap) leap

/-- Days from the proleptic Gregorian date 0000-01-01 to 1970-01-01. -/
def epochShift : Int := 719528

/-- Calendar date (year, month, day) of a day count relative to the Unix
epoch. -/
def civilFromDays (z : Int) : Int × Nat × Nat :=
  let z' := z + epochShift
  let era := z' / 146097
  let doe := (z' % 146097).toNat
  let yd := yearScan 400 0 doe
  let md := monthScan 12 1 yd.2 (isLeapYoe yd.1)
  (era * 400 + (yd.1 : Int), md.1, md.2 + 1)

/-- Day count relative to the Unix epoch of a calendar date. -/
def daysFromCivil (y : Int) (m d : Nat) : Int :=
  let era := y / 400
  let yoe := (y % 400).toNat
  let doy := monthStartSum m (isLeapYoe yoe) + (d - 1)
  let doe := yearStartSum yoe + doy
  era * 146097 + (doe : Int) - epochShift

/-- Fixed-width decimal digits (the w least significant digits of n,
zero-padded; faithful for n < 10 ^ w). -/
def padDigits : Nat → Nat → List Char
  | 0, _ => []
  | w + 1, n => padDigits w (n / 10) ++ [digitChar (n % 10)]

/-- Year field of an ISO string: four digits for 0..9999, otherwise the
expanded sign-plus-six-digits form. -/
def yearChars (y : Int) : List Char :=
  if 0 ≤ y ∧ y ≤ 9999 then padDigits 4 y.toNat
  else (if y < 0 then '-' else '+') :: padDigits 6 y.natAbs

/-- JS Date.prototype.toISOString on a time value of ms milliseconds
(model defined for valid dates, |ms| ≤ 8.64e15). -/
def toISOString (ms : Int) : String :=
  let days := ms / 86400000
  let msod := (ms % 86400000).toNat
  let ymd := civilFromDays days
  ⟨yearChars ymd.1 ++ '-' :: padDigits 2 ymd.2.1 ++ '-' :: padDigits 2 ymd.2.2 ++
    'T' :: padDigits 2 (msod / 3600000) ++ ':' :: padDigits 2 (msod / 60000 % 60) ++
    ':' :: padDigits 2 (msod / 1000 % 60) ++ '.' :: padDigits 3 (msod % 1000) ++ ['Z']⟩

/-- Read k decimal digit characters, returning their value and the rest. -/
def takeDigits : Nat → Nat → List Char → Nat × List Char
  | 0, acc, cs => (acc, cs)
  | _ + 1, acc, [] => (acc, [])
  | k + 1, acc, c :: cs => takeDigits k (acc * 10 + (c.toNat - 48)) cs

/-- Skip one expected separator character. -/
def skipSep : List Char → List Char
  | [] => []
  | _ :: cs => cs

/-- Parse the fields after the year sign: year digits, then the fixed
-MM-DDTHH:MM:SS.mmmZ layout, and recombine into a time value. -/
def parseISOBody (neg : Bool) (ydigits : Nat) (cs : List Char) : Int :=
  let yr := takeDigits ydigits 0 cs
  let y : Int := if neg then -(yr.1 : Int) else (yr.1 : Int)
  let mo := takeDigits 2 0 (skipSep yr.2)
  let dd := takeDigits 2 0 (skipSep mo.2)
  let hh := takeDigits 2 0 (skipSep dd.2)
  let mi := takeDigits 2 0 (skipSep hh.2)
  let ss := takeDigits 2 0 (skipSep mi.2)
  let mss := takeDigits 3 0 (skipSep ss.2)
  daysFromCivil y mo.1 dd.1 * 86400000 +
    ((hh.1 * 3600000 + mi.1 * 60000 + ss.1 * 1000 + mss.1 : Nat) : Int)

/-- JS new Date(s).getTime() for the ISO date-time strings this library
stores (the image of toISOString); other inputs are outside the modelled
domain. -/
def parseISODate (s : String) : Int :=
  match s.data with
  | '-' :: rest => parseISOBody true 6 rest
  | '+' :: rest => parseISOBody false 6 rest
  | cs => parseISOBody false 4 cs

/-! ## The document store (earthstar Replica), an external collaborator.

Modelled per the capability set the core consumes: the latest document per
path (a list, in the enumeration order the store uses for queries), plus the
attachment blob store keyed by attachment hash. A document with empty text
is the sentinel for absent/deleted. -/

/-- An es.5 document: path, text payload, format marker, and an optional
attachment claim (the hash recorded on the document). -/
structure DocEs5 where
  path : String
  text : String
  format : String := "es.5"
  attachmentHash : Option String := none
deriving Repr, DecidableEq

/-- The replica: latest documents (one per path, in store enumeration
order) and stored attachment blobs (hash to content). -/
structure Replica where
  docs : List DocEs5
  blobs : List (String × String) := []
deriving Repr, DecidableEq

/-- Replica.getLatestDocAtPath. -/
def getLatestDocAtPath (r : Replica) (p : String) : Option DocEs5 :=
  r.docs.find? (fun d => d.path == p)

/-- Replica.queryDocs with a pathStartsWith filter. -/
def queryDocs (r : Replica) (startsWithFilter : String) : List DocEs5 :=
  r.docs.filter (fun d => jsStartsWith d.path startsWithFilter)

/-- Query filter over paths (the fields used by the library). -/
structure PathFilter where
  pathStartsWith : Option String := none
  pathEndsWith : Option String := none
deriving Repr, DecidableEq

/-- Does a path satisfy a filter? -/
def matchesFilter (f : PathFilter) (p : String) : Bool :=
  (match f.pathStartsWith with
   | some pre => jsStartsWith p pre
   | none => true) &&
  (match f.pathEndsWith with
   | some suf => jsEndsWith p suf
   | none => true)

/-- Replica.queryPaths. -/
def queryPaths (r : Replica) (f : PathFilter) : List String :=
  (r.docs.filter (fun d => matchesFilter f d.path)).map (fun d => d.path)

/-- Replica.set: upsert the latest document at a path (the new document
supersedes the old one in place; a new path is appended in enumeration
order). The store accepts the writes the modelled flows issue. -/
def replicaSet (r : Replica) (p text : String) (att : Option String := none) : Replica :=
  if r.docs.any (fun d => d.path == p) then
    { r with docs := r.docs.map (fun d =>
        if d.path == p then { path := p, text := text, attachmentHash := att } else d) }
  else
    { r with docs := r.docs ++ [{ path := p, text := text, attachmentHash := att }] }

/-- Replica.wipeDocAtPath: replace the document at a path with the empty
sentinel. When no document exists at the path the store reports a failure
outcome, which every modelled caller ignores, so the replica is unchanged. -/
def wipeDocAtPath (r : Replica) (p : String) : Replica :=
  if r.docs.any (fun d => d.path == p) then replicaSet r p "" else r

/-- util.ts wipeDocsUnderPath: query the paths strictly under the given
path and wipe each of them, plus the path itself. -/
def wipeDocsUnderPath (r : Replica) (p : String) : Replica :=
  let subpaths := queryPaths r { pathStartsWith := some (p ++ "/") }
  wipeDocAtPath (subpaths.foldl (fun acc q => wipeDocAtPath acc q) r) p

/-- Text of the stored document at a path, if any (observation helper for
stating frame properties). -/
def docTextAt (r : Replica) (p : String) : Option String :=
  (getLatestDocAtPath r p).map (fun d => d.text)

/-! ## Values

One untyped domain covering every shape the schema nodes read and write.
vnull is the JS null appearing inside written composite values (an entry
listed with value null requests deletion); an entry that is absent from the
map is the JS undefined (field untouched). -/

mutual

inductive Value where
  | vstr (s : String)
  | vnum (n : Int)
  | vbig (n : Int)
  | vbool (b : Bool)
  | vdate (ms : Int)
  | vnull
  | vmap (entries : Entries)
  | vatt (metadata : String) (content : String)
deriving Repr, DecidableEq

inductive Entries where
  | nil
  | cons (key : String) (value : Value) (rest : Entries)
deriving Repr, DecidableEq

end

/-- First entry bound to a key (JS object property lookup; modelled keys
are unique). -/
def Entries.lookup : Entries → String → Option Value
  | .nil, _ => none
  | .cons k v rest, key => if k = key then some v else rest.lookup key

/-- JS delete of a property. -/
def Entries.erase : Entries → String → Entries
  | .nil, _ => .nil
  | .cons k v rest, key => if k = key then rest.erase key else .cons k v (rest.erase key)

/-- JS spread update: replace the value in place when the key is present,
append otherwise. -/
def Entries.set : Entries → String → Value → Entries
  | .nil, key, v => .cons key v .nil
  | .cons k w rest, key, v =>
    if k = key then .cons k v rest else .cons k w (rest.set key v)

/-- util.ts isEmptyObject. -/
def Entries.isEmpty : Entries → Bool
  | .nil => true
  | .cons _ _ _ => false

/-- JS spread of a possibly null accumulator: its entries, or none. (The
accumulators composite reduce/write spread are always maps or null.) -/
def entriesOf : Option Value → Entries
  | some (.vmap e) => e
  | _ => .nil

/-- Written entry value as a nullable: an entry holding JS null becomes
none for the child write. -/
def jsNullable : Value → Option Value
  | .vnull => none
  | v => some v

/-- A thrown JS error. The spec names taxonomy entries for these: the
read-only metadata write throw is InvalidSchemaUsage, an attachment fetch
error is AttachmentUnavailable. -/
inductive EsError where
  | jsError (msg : String)
deriving Repr, DecidableEq

/-- Outcome of Replica.getAttachment: a readable blob, absent, or an error
value (per the external interface: binary-readable-handle, absent, error).
The store returns the error outcome for a document that carries no
attachment claim, and absent when the claimed blob is not in the store. -/
def getAttachment (r : Replica) (doc : DocEs5) : Except EsError (Option String) :=
  match doc.attachmentHash with
  | none => .error (.jsError "This document cannot have an attachment")
  | some h =>
    match r.blobs.find? (fun kv => kv.1 == h) with
    | some kv => .ok (some kv.2)
    | none => .ok none

/-! ## Schema nodes

The EsType class hierarchy as a deep embedding: Atom (atoms.ts), ObjectType
(object.ts) with its shape, CollectionType (types/collection.ts) with its
inner value type, MetadataType (read-only, carries its reduce function),
AttachmentType (types/attachment.ts). -/

mutual

inductive EsSchema where
  | atom (encode : Value → String) (decode : String → Value)
  | obj (shape : Shape)
  | coll (inner : EsSchema)
  | metadataNode (reduceFn : DocEs5 → List String → Option Value → Option Value)
  | attachmentNode

inductive Shape where
  | nil
  | cons (key : String) (sub : EsSchema) (rest : Shape)

end

/-- The reserved key referencing the root document of an object. -/
def SELF_SIGIL : String := "@self"

/-- Property names a plain JS object literal inherits from
Object.prototype. Reading shape[key] for one of these keys on a shape
literal that does not declare them returns the inherited member — a truthy
value that is not a schema. -/
def objectProtoProps : List String :=
  ["constructor", "hasOwnProperty", "isPrototypeOf", "propertyIsEnumerable",
   "toLocaleString", "toString", "valueOf", "__proto__",
   "__defineGetter__", "__defineSetter__", "__lookupGetter__",
   "__lookupSetter__"]

mutual

/-- EsType.reduce for each node kind.

Atom: empty text is the deleted sentinel and reduces to null, otherwise
decode the text (prev and the path are ignored).

ObjectType: take the first path component as the field key, defaulting to
the self sigil; shape[key] on an undeclared key yields undefined (falsy)
and prev passes through — unless the key names an Object.prototype member,
where the prototype-chained lookup yields a truthy non-schema and the
attrSchema.reduce call throws a TypeError; for a declared key, delegate
to the field with the remaining components and the field's previous
sub-value, then splice: a null sub-result deletes the key (collapsing to
null when nothing remains), a non-null one is spread in.

CollectionType: URI-decode the leading component as the key (JS coerces a
missing component to the string undefined); empty text deletes the key,
otherwise delegate to the inner type; a null inner result deletes the key;
both deletions collapse an emptied map to null.

MetadataType: apply the stored reduce function.

AttachmentType: fetch the attachment; an Error outcome from the store is
thrown, an absent outcome reduces to null, otherwise pair the document text
with the blob. -/
def reduceSchema (r : Replica) (s : EsSchema) (doc : DocEs5)
    (pathComponents : List String) (prev : Option Value) :
    Except EsError (Option Value) :=
  match s with
  | .atom _ decode =>
    .ok (if doc.text = "" then none else some (decode doc.text))
  | .obj shape =>
    reduceShape r shape (pathComponents.headD SELF_SIGIL) doc pathComponents.tail prev
  | .coll inner =>
    let key := match pathComponents.head? with
      | some rawKey => decodeURIComponent rawKey
      | none => "undefined"
    if doc.text = "" then
      let next := (entriesOf prev).erase key
      .ok (if next.isEmpty then none else some (.vmap next))
    else
      match reduceSchema r inner doc pathComponents.tail ((entriesOf prev).lookup key) with
      | .error e => .error e
      | .ok none =>
        let next := (entriesOf prev).erase key
        .ok (if next.isEmpty then none else some (.vmap next))
      | .ok (some v) => .ok (some (.vmap ((entriesOf prev).set key v)))
  | .metadataNode reduceFn => .ok (reduceFn doc pathComponents prev)
  | .attachmentNode =>
    match getAttachment r doc with
    | .error e => .error e
    | .ok none => .ok none
    | .ok (some content) => .ok (some (.vatt doc.text content))

/-- The shape walk inside ObjectType.reduce: the own-property part of the
JS lookup shape[attrKey] fused with the splice on its result. When attrKey
is not an own key the lookup continues up the prototype chain: for an
Object.prototype member name it produces a truthy non-schema and the
attrSchema.reduce call throws a TypeError; only a genuinely absent key is
undefined (falsy) and falls through to prev. -/
def reduceShape (r : Replica) (shape : Shape) (attrKey : String) (doc : DocEs5)
    (remainingPath : List String) (prev : Option Value) :
    Except EsError (Option Value) :=
  match shape with
  | .nil =>
    if attrKey ∈ objectProtoProps then
      .error (.jsError "attrSchema.reduce is not a function")
    else .ok prev
  | .cons k sub rest =>
    if k = attrKey then
      match reduceSchema r sub doc remainingPath ((entriesOf prev).lookup attrKey) with
      | .error e => .error e
      | .ok none =>
        let next := (entriesOf prev).erase attrKey
        .ok (if next.isEmpty then none else some (.vmap next))
      | .ok (some v) => .ok (some (.vmap ((entriesOf prev).set attrKey v)))
    else reduceShape r rest attrKey doc remainingPath prev

end

mutual

/-- EsType.write for each node kind.

Atom: null clears the document to empty text, otherwise store the encoding.

ObjectType: null wipes the document at the path and everything under it;
otherwise walk the declared shape and write every field present in the
data (the self sigil writes at the path itself, any other field at its
subpath), where an entry holding null deletes just that field.

CollectionType: null wipes the path and everything under it; otherwise
write each entry of the data at the URI-encoded key subpath.

MetadataType: always throws (a read-only node).

AttachmentType: null wipes the single document; otherwise store the
metadata text together with the attachment blob. -/
def writeSchema (r : Replica) (s : EsSchema) (author path : String)
    (data : Option Value) : Except EsError Replica :=
  match s with
  | .atom encode _ =>
    .ok (replicaSet r path (match data with
      | none => ""
      | some v => encode v))
  | .obj shape =>
    match data with
    | none => .ok (wipeDocsUnderPath r path)
    | some v => writeShape r shape author path v
  | .coll inner =>
    match data with
    | none => .ok (wipeDocsUnderPath r path)
    | some v => writeCollEntries r inner author path (entriesOf (some v))
  | .metadataNode _ =>
    .error (.jsError "Attempted to write to a read-only metadata value")
  | .attachmentNode =>
    match data with
    | none => .ok (wipeDocAtPath r path)
    | some v =>
      match v with
      | .vatt metadata content =>
        .ok (replicaSet r path metadata (some content))
      | _ => .ok (replicaSet r path "" none)
termination_by (sizeOf s, 0)

/-- The field loop of ObjectType.write: for each declared field carried by
the data (not undefined), write the field value (possibly null) at the
field's path. -/
def writeShape (r : Replica) (shape : Shape) (author path : String)
    (v : Value) : Except EsError Replica :=
  match shape with
  | .nil => .ok r
  | .cons key sub rest =>
    match (entriesOf (some v)).lookup key with
    | some fieldVal =>
      match writeSchema r sub author
          (if key = SELF_SIGIL then path else path ++ "/" ++ key)
          (jsNullable fieldVal) with
      | .error e => .error e
      | .ok r' => writeShape r' rest author path v
    | none => writeShape r rest author path v
termination_by (sizeOf shape, 0)

/-- The entry loop of CollectionType.write. -/
def writeCollEntries (r : Replica) (inner : EsSchema) (author path : String) :
    Entries → Except EsError Replica
  | .nil => .ok r
  | .cons key val rest =>
    match writeSchema r inner author (path ++ "/" ++ encodeURIComponent key)
        (jsNullable val) with
    | .error e => .error e
    | .ok r' => writeCollEntries r' inner author path rest
termination_by es => (sizeOf inner, 1 + sizeOf es)

end

/-- The documents EsType.read fetches, in fold order: the latest document
at the contents prefix stripped of one trailing slash, then every document
whose path starts with the contents prefix, in store enumeration order
(absent root dropped). -/
def readFetchedDocs (r : Replica) (path : String) : List DocEs5 :=
  (getLatestDocAtPath r (dropTrailingSlash (getContentPrefixPath path))).toList ++
    queryDocs r (getContentPrefixPath path)

/-- The fold inside EsType.read: feed each fetched document to reduce with
the path components of its path below the contents prefix. -/
def foldReadDocs (r : Replica) (s : EsSchema) (contentsPfx : String) :
    List DocEs5 → Option Value → Except EsError (Option Value)
  | [], acc => .ok acc
  | doc :: rest, acc =>
    match reduceSchema r s doc (splitPath (jsDrop doc.path (jsLength contentsPfx))) acc with
    | .error e => .error e
    | .ok acc' => foldReadDocs r s contentsPfx rest acc'

/-- EsType.read. -/
def readSchema (r : Replica) (s : EsSchema) (path : String) :
    Except EsError (Option Value) :=
  foldReadDocs r s (getContentPrefixPath path) (readFetchedDocs r path) none

/-! ## Atoms (atoms.ts) and collection constructors (types/collection.ts) -/

/-- String value type: plain text passthrough. Wrong-variant inputs are
outside the typed surface and encode to the empty string. -/
def stringAtom : EsSchema :=
  .atom (fun v => match v with
          | .vstr s => s
          | _ => "")
    (fun s => .vstr s)

/-- Number value type: decimal text (the embedding covers the exact-integer
grid of JS numbers; see the round-trip theorem). -/
def numberAtom : EsSchema :=
  .atom (fun v => match v with
          | .vnum n => intToString n
          | _ => "")
    (fun s => .vnum (parseJsInt s))

/-- Arbitrary-sized int value type: decimal text. -/
def bigintAtom : EsSchema :=
  .atom (fun v => match v with
          | .vbig n => intToString n
          | _ => "")
    (fun s => .vbig (parseJsInt s))

/-- Boolean value type: the strings for true and false are the digit one
and the digit zero, and decoding compares with the digit one. -/
def booleanAtom : EsSchema :=
  .atom (fun v => match v with
          | .vbool b => if b then "1" else "0"
          | _ => "")
    (fun s => .vbool (s = "1"))

/-- Date value type: ISO-formatted date-time string. -/
def datetimeAtom : EsSchema :=
  .atom (fun v => match v with
          | .vdate ms => toISOString ms
          | _ => "")
    (fun s => .vdate (parseISODate s))

/-- The set collection: inner atom encodes presence (truthy gives the digit
one, otherwise empty) and decodes every text to true. -/
def setSchema : EsSchema :=
  .coll (.atom (fun v => match v with
          | .vbool b => if b then "1" else ""
          | _ => "")
    (fun _ => .vbool true))

/-- The dict collection constructor. -/
def dictSchema (valueSchema : EsSchema) : EsSchema :=
  .coll valueSchema

/-! ## Live view (live.ts) -/

/-- Kinds of replica events the view distinguishes. -/
inductive EventKind where
  | success
  | expire
  | other
deriving Repr, DecidableEq

/-- An event from the replica event stream. -/
structure ReplicaEvent where
  kind : EventKind
  doc : DocEs5
deriving Repr, DecidableEq

/-- LiveQuery state: the schema, content prefix and requested path it was
constructed with, the replica, the materialized snapshot, and whether the
event-stream reader is held (replicaEvents is not undefined). -/
structure LiveQuery where
  schema : EsSchema
  contentPfx : String
  requestedPath : String
  replica : Replica
  value : Option Value
  eventsOpen : Bool

/-- LiveQuery.rootPath: the content prefix stripped of one trailing slash. -/
def LiveQuery.rootPath (q : LiveQuery) : String :=
  dropTrailingSlash q.contentPfx

/-- LiveQuery.snapshot(). -/
def LiveQuery.snapshot (q : LiveQuery) : Option Value :=
  q.value

/-- LiveQuery.isClosed: true exactly when the event-stream reader is not
held. -/
def LiveQuery.isClosed (q : LiveQuery) : Bool :=
  !q.eventsOpen

/-- LiveQuery.close(): clears observers, cancels and releases the reader. -/
def LiveQuery.close (q : LiveQuery) : LiveQuery :=
  { q with eventsOpen := false }

/-- LiveQuery.handleDoc: ignore documents outside the view (path neither
the root path nor under the content prefix); otherwise fold the document
into the snapshot through the schema's reduce. -/
def LiveQuery.handleDoc (q : LiveQuery) (doc : DocEs5) : Except EsError LiveQuery :=
  if doc.path ≠ q.rootPath ∧ ¬ jsStartsWith doc.path q.contentPfx then .ok q
  else
    match reduceSchema q.replica q.schema doc
        (splitPath (jsDrop doc.path (jsLength q.contentPfx))) q.value with
    | .error e => .error e
    | .ok v => .ok { q with value := v }

/-- The event loop of LiveQuery.run over a delivered event sequence,
processed strictly in order: an upsert or expiry whose document format is
not the recognized one makes run return, which exits the loop without
releasing the reader; other event kinds are skipped; relevant documents are
folded into the snapshot one at a time. -/
def LiveQuery.runEvents (q : LiveQuery) : List ReplicaEvent → Except EsError LiveQuery
  | [] => .ok q
  | e :: rest =>
    match e.kind with
    | .success | .expire =>
      if e.doc.format ≠ "es.5" then .ok q
      else
        match q.handleDoc e.doc with
        | .error err => .error err
        | .ok q' => q'.runEvents rest
    | .other => q.runEvents rest

/-- EsType.observe: read the initial snapshot (at the content prefix) and
construct a live query whose constructor starts the event loop, so the
reader is held. -/
def observeSchema (r : Replica) (s : EsSchema) (path : String) :
    Except EsError LiveQuery :=
  let contentPfx := getContentPrefixPath path
  match readSchema r s contentPfx with
  | .error e => .error e
  | .ok initial =>
    .ok { schema := s, contentPfx := contentPfx, requestedPath := path,
          replica := r, value := initial, eventsOpen := true }

/-! ## findByCollectionKey (types/collection.ts) -/

/-- JS string concatenation of a possibly-undefined value with a string:
undefined coerces to the string spelling it out. -/
def jsConcatUndef (a : Option String) (b : String) : String :=
  (match a with
   | some s => s
   | none => "undefined") ++ b

/-- findByCollectionKey: build the path ending from the collectionPrefix
option (JS concatenation, so an omitted option contributes the text
undefined), query paths ending with it (plus any caller filter), and strip
the ending from each result. -/
def findByCollectionKey (key : String) (r : Replica)
    (collectionPfx : Option String) (startsWithFilter : Option String) :
    List String :=
  let pathEnding := jsConcatUndef collectionPfx ("/" ++ encodeURIComponent key)
  let relationPaths := queryPaths r
    { pathStartsWith := startsWithFilter, pathEndsWith := some pathEnding }
  relationPaths.map (fun p => jsTake p (jsLength p - jsLength pathEnding))

/-! ## Observation helpers used by the statements -/

/-- The field keys a shape declares. -/
def shapeKeys : Shape → List String
  | .nil => []
  | .cons k _ rest => k :: shapeKeys rest

/-- Write followed by a read of the same path (the round-trip under test). -/
def writeRead (r : Replica) (s : EsSchema) (author path : String)
    (data : Option Value) : Except EsError (Option Value) :=
  match writeSchema r s author path data with
  | .error e => .error e
  | .ok r' => readSchema r' s path

/-- Paths inside the subtree rooted at a document path: the path itself and
every path strictly under it. -/
def inSubtree (root q : String) : Prop :=
  q = root ∨ jsStartsWith q (root ++ "/") = true

instance (root q : String) : Decidable (inSubtree root q) := by
  unfold inSubtree; infer_instance

/-- The document path of an object field: the object path itself for the
self sigil, the keyed subpath otherwise. -/
def fieldPath (path key : String) : String :=
  if key = SELF_SIGIL then path else path ++ "/" ++ key

/-- The declared fields of a shape as an association list. -/
def shapeAssoc : Shape → List (String × EsSchema)
  | .nil => []
  | .cons k sub rest => (k, sub) :: shapeAssoc rest

/-- Schema nodes whose write touches at most the single document at its own
path (atoms, attachments, and read-only metadata, which writes nothing). -/
def isSingleDocSchema : EsSchema → Bool
  | .atom _ _ => true
  | .metadataNode _ => true
  | .attachmentNode => true
  | _ => false

/-- The paths belonging to an object field: just the object path for the
self sigil (its data lives on the root document), the whole subtree at the
keyed subpath for any other field. -/
def fieldDocPaths (p k q : String) : Prop :=
  if k = SELF_SIGIL then q = p else inSubtree (fieldPath p k) q

instance (p k q : String) : Decidable (fieldDocPaths p k q) := by
  unfold fieldDocPaths
  split <;> infer_instance

/-! # Theorems -/

/-! ## Helper lemmas about the store -/

/-- Presence of a document at a path. -/
theorem docPresent_iff (r : Replica) (p : String) :
    (docTextAt r p).isSome = true ↔ r.docs.any (fun d => d.path == p) = true := by
  simp [docTextAt, getLatestDocAtPath, Option.isSome_map, List.find?_isSome,
    List.any_eq_true]

/-- find? over a one-element extension. -/
theorem find?_concat (l : List DocEs5) (x : DocEs5) (pred : DocEs5 → Bool) :
    (l ++ [x]).find? pred =
      match l.find? pred with
      | some y => some y
      | none => if pred x then some x else none := by
  induction l with
  | nil =>
    simp only [List.nil_append, List.find?_nil]
    by_cases hx : pred x = true
    · rw [List.find?_cons_of_pos _ hx, if_pos hx]
    · rw [List.find?_cons_of_neg _ (by simp [hx]), if_neg (by simp [hx]),
        List.find?_nil]
  | cons d ds ih =>
    by_cases hd : pred d = true
    · rw [List.cons_append, List.find?_cons_of_pos _ hd,
        List.find?_cons_of_pos _ hd]
    · rw [List.cons_append, List.find?_cons_of_neg _ (by simp [hd]),
        List.find?_cons_of_neg _ (by simp [hd]), ih]

/-- find? over the in-place replacement replicaSet performs. -/
theorem find?_mapReplace (l : List DocEs5) (p t : String) (att : Option String)
    (q : String) :
    (l.map (fun d =>
        if d.path == p then ({ path := p, text := t, attachmentHash := att } : DocEs5)
        else d)).find? (fun d => d.path == q) =
      if q = p then
        (if l.any (fun d => d.path == p) then
          some { path := p, text := t, attachmentHash := att }
        else none)
      else l.find? (fun d => d.path == q) := by
  induction l with
  | nil => by_cases hq : q = p <;> simp [hq]
  | cons d ds ih =>
    rw [List.map_cons]
    by_cases hd : d.path = p
    · have hfd : (if d.path == p then
          ({ path := p, text := t, attachmentHash := att } : DocEs5) else d) =
          { path := p, text := t, attachmentHash := att } := by simp [hd]
      rw [hfd]
      by_cases hq : q = p
      · rw [List.find?_cons_of_pos _ (by simp [hq]), if_pos hq,
          if_pos (by simp [List.any_cons, hd])]
      · rw [List.find?_cons_of_neg _ (by simp; exact fun h => hq h.symm), ih,
          if_neg hq, if_neg hq,
          List.find?_cons_of_neg _ (by simp [hd]; exact fun h => hq h.symm)]
    · have hfd : (if d.path == p then
          ({ path := p, text := t, attachmentHash := att } : DocEs5) else d) = d := by
        simp [hd]
      rw [hfd]
      by_cases hdq : d.path = q
      · have hq : ¬ q = p := fun hqp => hd (hqp ▸ hdq)
        rw [List.find?_cons_of_pos _ (by simp [hdq]), if_neg hq,
          List.find?_cons_of_pos _ (by simp [hdq])]
      · rw [List.find?_cons_of_neg _ (by simp [hdq]), ih]
        by_cases hq : q = p
        · rw [if_pos hq, if_pos hq, List.any_cons,
            show (d.path == p) = false from by simp [hd], Bool.false_or]
        · rw [if_neg hq, if_neg hq, List.find?_cons_of_neg _ (by simp [hdq])]

/-- Point update law for replicaSet. -/
theorem docTextAt_replicaSet (r : Replica) (p t : String) (att : Option String)
    (q : String) :
    docTextAt (replicaSet r p t att) q =
      if q = p then some t else docTextAt r q := by
  unfold replicaSet docTextAt getLatestDocAtPath
  by_cases hany : r.docs.any (fun d => d.path == p) = true
  · simp only [hany, if_true]
    rw [find?_mapReplace r.docs p t att q]
    by_cases hq : q = p <;> simp [hq, hany]
  · simp only [Bool.not_eq_true] at hany
    simp only [hany, Bool.false_eq_true, if_false]
    rw [find?_concat]
    by_cases hq : q = p
    · subst hq
      have hnone : r.docs.find? (fun d => d.path == q) = none := by
        rw [List.find?_eq_none]
        intro d hd
        have := List.any_eq_false.mp hany d hd
        simpa using this
      simp [hnone]
    · have hx : (({ path := p, text := t, attachmentHash := att } : DocEs5).path == q) = false := by
        simp only [beq_eq_false_iff_ne, ne_eq]
        exact fun h => hq h.symm
      cases hfind : r.docs.find? (fun d => d.path == q) <;> simp [hfind, hx, hq]

/-- Point law for wipeDocAtPath: an existing document is emptied, an
absent path is left untouched (the store failure outcome is ignored). -/
theorem docTextAt_wipeDocAtPath (r : Replica) (p q : String) :
    docTextAt (wipeDocAtPath r p) q =
      if q = p ∧ (docTextAt r p).isSome = true then some "" else docTextAt r q := by
  unfold wipeDocAtPath
  by_cases hany : r.docs.any (fun d => d.path == p) = true
  · rw [if_pos hany, docTextAt_replicaSet]
    have hs : (docTextAt r p).isSome = true := (docPresent_iff r p).mpr hany
    by_cases hq : q = p <;> simp [hq, hs]
  · rw [if_neg hany]
    have hs : ¬ (docTextAt r p).isSome = true :=
      fun h => hany ((docPresent_iff r p).mp h)
    simp [hs]

/-- Wiping never creates or removes documents. -/
theorem isSome_wipeDocAtPath (r : Replica) (p q : String) :
    (docTextAt (wipeDocAtPath r p) q).isSome = (docTextAt r q).isSome := by
  rw [docTextAt_wipeDocAtPath]
  split
  · rename_i h
    rw [h.1, h.2]
    rfl
  · rfl

/-- Folding wipes over a list of paths empties exactly the listed paths
that hold a document. -/
theorem docTextAt_foldl_wipe (l : List String) (r : Replica) (q : String) :
    docTextAt (l.foldl (fun acc x => wipeDocAtPath acc x) r) q =
      if q ∈ l ∧ (docTextAt r q).isSome = true then some "" else docTextAt r q := by
  induction l generalizing r with
  | nil => simp
  | cons x t ih =>
    rw [List.foldl_cons, ih, isSome_wipeDocAtPath, docTextAt_wipeDocAtPath]
    by_cases hqx : q = x
    · subst hqx
      by_cases hp : (docTextAt r q).isSome = true <;>
        by_cases hqt : q ∈ t <;> simp [hp, hqt, List.mem_cons]
    · have hx : ¬ (q = x ∧ (docTextAt r x).isSome = true) := fun h => hqx h.1
      by_cases hp : (docTextAt r q).isSome = true <;>
        by_cases hqt : q ∈ t <;> simp [hp, hqt, hqx, hx, List.mem_cons]

/-- Folding wipes preserves document presence. -/
theorem isSome_foldl_wipe (l : List String) (r : Replica) (q : String) :
    (docTextAt (l.foldl (fun acc x => wipeDocAtPath acc x) r) q).isSome =
      (docTextAt r q).isSome := by
  rw [docTextAt_foldl_wipe]
  split
  · rename_i h
    rw [h.2]
    rfl
  · rfl

/-- Membership in a pathStartsWith query: exactly the stored paths with
the prefix. -/
theorem mem_queryPaths_startsWith (r : Replica) (pre q : String) :
    q ∈ queryPaths r { pathStartsWith := some pre } ↔
      jsStartsWith q pre = true ∧ (docTextAt r q).isSome = true := by
  rw [docPresent_iff]
  simp only [queryPaths, matchesFilter, List.mem_map, List.mem_filter,
    List.any_eq_true, Bool.and_eq_true, beq_iff_eq]
  constructor
  · rintro ⟨d, ⟨hd, hstart, -⟩, rfl⟩
    exact ⟨hstart, d, hd, rfl⟩
  · rintro ⟨hstart, d, hd, hpath⟩
    exact ⟨d, ⟨hd, hpath ▸ hstart, trivial⟩, hpath⟩

/-! ## Helper lemmas about paths and subtrees -/

/-- jsStartsWith in terms of list prefixes. -/
theorem jsStartsWith_iff (s pre : String) :
    jsStartsWith s pre = true ↔ pre.data <+: s.data := by
  simp [jsStartsWith, List.isPrefixOf_iff_prefix]

/-- Data of the slash-extended path. -/
theorem data_append_slash (p k : String) :
    (p ++ "/" ++ k).data = (p.data ++ ['/']) ++ k.data := by
  simp [String.data_append]

/-- Strings with the same characters are equal. -/
theorem stringDataInj (a b : String) (hab : a.data = b.data) : a = b := by
  cases a
  cases b
  exact congrArg String.mk (by simpa using hab)

/-- Subtree membership in terms of list prefixes. -/
theorem inSubtree_iff (root q : String) :
    inSubtree root q ↔
      q.data = root.data ∨ root.data ++ ['/'] <+: q.data := by
  unfold inSubtree
  rw [jsStartsWith_iff]
  constructor
  · rintro (rfl | h)
    · exact Or.inl rfl
    · exact Or.inr (by simpa [String.data_append] using h)
  · rintro (h | h)
    · exact Or.inl (stringDataInj q root h)
    · exact Or.inr (by simpa [String.data_append] using h)

/-- Every path of a subtree extends the root. -/
theorem inSubtree_length_ge (root q : String) (h : inSubtree root q) :
    root.data.length ≤ q.data.length := by
  rw [inSubtree_iff] at h
  rcases h with h | h
  · exact h ▸ le_rfl
  · calc root.data.length ≤ (root.data ++ ['/']).length := by simp
      _ ≤ q.data.length := h.length_le

/-- The subtree of a keyed field path never contains the object path. -/
theorem not_inSubtree_keyed_self (p k : String) :
    ¬ inSubtree (p ++ "/" ++ k) p := fun h => by
  have := inSubtree_length_ge _ _ h
  rw [data_append_slash] at this
  simp at this

/-- Subtrees of field paths sit inside the subtree of the object path. -/
theorem inSubtree_trans_field (p k q : String)
    (h : inSubtree (p ++ "/" ++ k) q) : inSubtree p q := by
  rw [inSubtree_iff] at h ⊢
  rcases h with h | h
  · exact Or.inr (by rw [h, data_append_slash]; exact List.prefix_append _ _)
  · refine Or.inr (List.IsPrefix.trans ?_ h)
    rw [data_append_slash]
    exact (List.prefix_append _ _).trans (List.prefix_append _ _)

/-- Subtrees of field paths sit inside the subtree of the field path chosen
by fieldPath. -/
theorem inSubtree_fieldPath_trans (p k q : String)
    (h : inSubtree (fieldPath p k) q) : inSubtree p q := by
  unfold fieldPath at h
  split at h
  · exact h
  · exact inSubtree_trans_field p k q h

/-- When a slash-extended list is a prefix, the target carries a slash at
the keyed position. -/
theorem prefix_slash_getElem (k a : List Char) (h : k ++ ['/'] <+: a) :
    ∃ hlt : k.length < a.length, a[k.length] = '/' := by
  have hle := h.length_le
  rw [List.length_append] at hle
  simp only [List.length_singleton] at hle
  refine ⟨by omega, ?_⟩
  have hg := (List.IsPrefix.getElem h
    (show k.length < (k ++ ['/']).length by simp)).symm
  rw [List.getElem_append_right (le_refl k.length)] at hg
  simpa using hg

/-- A slash-free key whose slash-extension is a prefix of another
slash-free key slash-extension equals it. -/
theorem slashfree_ext_eq (k k' : List Char) (hk' : '/' ∉ k')
    (h : k ++ ['/'] <+: k' ++ ['/']) : k = k' := by
  have hlen : k.length + 1 ≤ k'.length + 1 := by
    have := h.length_le
    rw [List.length_append, List.length_append] at this
    simpa using this
  rcases Nat.lt_or_ge k.length k'.length with hlt | hge
  · exfalso
    obtain ⟨hb, hget⟩ := prefix_slash_getElem k (k' ++ ['/']) h
    rw [List.getElem_append_left hlt] at hget
    exact hk' (hget ▸ List.getElem_mem _)
  · have hlen' : (k ++ ['/']).length = (k' ++ ['/']).length := by
      rw [List.length_append, List.length_append]
      simp only [List.length_singleton]
      omega
    have heq := h.eq_of_length hlen'
    exact (List.append_inj_left' heq (by simp))

/-- Subtrees of distinct slash-free keys under the same object path are
disjoint. -/
theorem subtree_disjoint (p k k' q : String)
    (hk : '/' ∉ k.data) (hk' : '/' ∉ k'.data) (hne : k ≠ k')
    (h1 : inSubtree (p ++ "/" ++ k) q) : ¬ inSubtree (p ++ "/" ++ k') q := by
  intro h2
  rw [inSubtree_iff, data_append_slash] at h1 h2
  rcases h1 with h1 | h1 <;> rcases h2 with h2 | h2
  · rw [h1] at h2
    exact hne (stringDataInj _ _ (List.append_cancel_left h2))
  · rw [h1] at h2
    rw [List.append_assoc] at h2
    have hpre : k'.data ++ ['/'] <+: k.data :=
      (List.prefix_append_right_inj _).mp h2
    obtain ⟨hb, hget⟩ := prefix_slash_getElem k'.data k.data hpre
    exact hk (hget ▸ List.getElem_mem _)
  · rw [h2] at h1
    rw [List.append_assoc] at h1
    have hpre : k.data ++ ['/'] <+: k'.data :=
      (List.prefix_append_right_inj _).mp h1
    obtain ⟨hb, hget⟩ := prefix_slash_getElem k.data k'.data hpre
    exact hk' (hget ▸ List.getElem_mem _)
  · rw [List.append_assoc] at h1 h2
    rcases List.prefix_or_prefix_of_prefix h1 h2 with hp | hp
    · have hpre : k.data ++ ['/'] <+: k'.data ++ ['/'] :=
        (List.prefix_append_right_inj _).mp hp
      exact hne (stringDataInj _ _ (slashfree_ext_eq _ _ hk' hpre))
    · have hpre : k'.data ++ ['/'] <+: k.data ++ ['/'] :=
        (List.prefix_append_right_inj _).mp hp
      exact hne (stringDataInj _ _ (slashfree_ext_eq _ _ hk hpre).symm)

/-- The effect of wipeDocsUnderPath on every path: the subtree paths that
hold a document are emptied, everything else is untouched. -/
theorem docTextAt_wipeDocsUnderPath (r : Replica) (p q : String) :
    docTextAt (wipeDocsUnderPath r p) q =
      if (q = p ∨ jsStartsWith q (p ++ "/") = true) ∧ (docTextAt r q).isSome = true
      then some "" else docTextAt r q := by
  unfold wipeDocsUnderPath
  rw [docTextAt_wipeDocAtPath, isSome_foldl_wipe, docTextAt_foldl_wipe]
  by_cases hqp : q = p
  · subst hqp
    by_cases hp : (docTextAt r q).isSome = true
    · simp [hp]
    · have hmem : ¬ (q ∈ queryPaths r { pathStartsWith := some (q ++ "/") } ∧
          (docTextAt r q).isSome = true) := fun h => hp h.2
      simp [hp, hmem]
  · have hc : ¬ (q = p ∧ (docTextAt r p).isSome = true) := fun h => hqp h.1
    rw [if_neg hc]
    by_cases hp : (docTextAt r q).isSome = true
    · by_cases hstart : jsStartsWith q (p ++ "/") = true
      · have hmem : q ∈ queryPaths r { pathStartsWith := some (p ++ "/") } :=
          (mem_queryPaths_startsWith r _ q).mpr ⟨hstart, hp⟩
        simp [hmem, hp, hstart]
      · have hmem : q ∉ queryPaths r { pathStartsWith := some (p ++ "/") } :=
          fun h => hstart ((mem_queryPaths_startsWith r _ q).mp h).1
        simp [hmem, hp, hstart, hqp]
    · simp [hp]

/-- Wiping a subtree never creates or removes documents. -/
theorem isSome_wipeDocsUnderPath (r : Replica) (p q : String) :
    (docTextAt (wipeDocsUnderPath r p) q).isSome = (docTextAt r q).isSome := by
  rw [docTextAt_wipeDocsUnderPath]
  split
  · rename_i h
    rw [h.2]
    rfl
  · rfl

/-! ## C3: writing null wipes the whole subtree -/

/-- C3: for every Object shape and every Collection, a write with data null
at path p is exactly wipeDocsUnderPath, and wipeDocsUnderPath wipes the
document at p itself and every stored document whose path starts with the
prefix p plus a slash, while every other path is untouched (and paths
holding no document stay absent). -/
theorem c3_write_null_wipes (r : Replica) (author p : String)
    (shape : Shape) (inner : EsSchema) :
    writeSchema r (.obj shape) author p none = .ok (wipeDocsUnderPath r p) ∧
    writeSchema r (.coll inner) author p none = .ok (wipeDocsUnderPath r p) ∧
    ∀ q, docTextAt (wipeDocsUnderPath r p) q =
      if (q = p ∨ jsStartsWith q (p ++ "/") = true) ∧ (docTextAt r q).isSome = true
      then some "" else docTextAt r q :=
  ⟨by simp [writeSchema], by simp [writeSchema],
   fun q => docTextAt_wipeDocsUnderPath r p q⟩

/-- C3 witness: wiping a two-field object at its path empties the root
document and the field document underneath and leaves a sibling object
untouched. -/
theorem c3_write_null_wipes_witness :
    writeSchema
      ⟨[⟨"/o", "root", "es.5", none⟩, ⟨"/o/title", "t", "es.5", none⟩,
        ⟨"/other", "keep", "es.5", none⟩], []⟩
      (.obj (.cons "@self" stringAtom (.cons "title" stringAtom .nil)))
      "auth" "/o" none =
      .ok (wipeDocsUnderPath
        ⟨[⟨"/o", "root", "es.5", none⟩, ⟨"/o/title", "t", "es.5", none⟩,
          ⟨"/other", "keep", "es.5", none⟩], []⟩ "/o") ∧
    docTextAt (wipeDocsUnderPath
        ⟨[⟨"/o", "root", "es.5", none⟩, ⟨"/o/title", "t", "es.5", none⟩,
          ⟨"/other", "keep", "es.5", none⟩], []⟩ "/o") "/o" = some "" ∧
    docTextAt (wipeDocsUnderPath
        ⟨[⟨"/o", "root", "es.5", none⟩, ⟨"/o/title", "t", "es.5", none⟩,
          ⟨"/other", "keep", "es.5", none⟩], []⟩ "/o") "/o/title" = some "" ∧
    docTextAt (wipeDocsUnderPath
        ⟨[⟨"/o", "root", "es.5", none⟩, ⟨"/o/title", "t", "es.5", none⟩,
          ⟨"/other", "keep", "es.5", none⟩], []⟩ "/o") "/other" = some "keep" := by
  refine ⟨(c3_write_null_wipes _ "auth" "/o"
      (.cons "@self" stringAtom (.cons "title" stringAtom .nil)) stringAtom).1,
    ?_, ?_, ?_⟩ <;>
  · rw [(c3_write_null_wipes _ "auth" "/o"
      (.cons "@self" stringAtom (.cons "title" stringAtom .nil)) stringAtom).2.2]
    rfl

/-- A spread update never produces the empty map. -/
theorem Entries.set_ne_nil (e : Entries) (k : String) (v : Value) :
    e.set k v ≠ .nil := by
  cases e with
  | nil => simp [Entries.set]
  | cons k' v' rest => simp only [Entries.set]; split <;> simp

/-- isEmpty detects exactly the empty map. -/
theorem Entries.isEmpty_iff (e : Entries) : e.isEmpty = true ↔ e = .nil := by
  cases e <;> simp [Entries.isEmpty]

/-- The collapse step (null when emptied) never yields the empty map. -/
theorem collapse_ne_empty (next : Entries) :
    (if next.isEmpty then none else some (Value.vmap next) : Option Value) ≠
      some (.vmap .nil) := by
  split
  · simp
  · rename_i h
    simp only [ne_eq, Option.some.injEq, Value.vmap.injEq]
    intro hnil
    exact h ((Entries.isEmpty_iff _).mpr hnil)

/-- The shape walk of ObjectType.reduce passes prev through untouched when
the key is not declared and is not an inherited Object.prototype name. -/
theorem reduceShape_not_mem (r : Replica) (attrKey : String)
    (doc : DocEs5) (remainingPath : List String) (prev : Option Value)
    (shape : Shape) (h : attrKey ∉ shapeKeys shape)
    (hp : attrKey ∉ objectProtoProps) :
    reduceShape r shape attrKey doc remainingPath prev = .ok prev := by
  match shape with
  | .nil => simp [reduceShape, hp]
  | .cons k sub rest =>
    simp only [shapeKeys, List.mem_cons, not_or] at h
    have hk : ¬(k = attrKey) := fun hk => h.1 hk.symm
    simp only [reduceShape, if_neg hk]
    exact reduceShape_not_mem r attrKey doc remainingPath prev rest h.2 hp

/-- The shape walk of ObjectType.reduce throws the TypeError of calling
reduce on an inherited Object.prototype member when the key is undeclared
but names such a member. -/
theorem reduceShape_proto (r : Replica) (attrKey : String)
    (doc : DocEs5) (remainingPath : List String) (prev : Option Value)
    (shape : Shape) (h : attrKey ∉ shapeKeys shape)
    (hp : attrKey ∈ objectProtoProps) :
    reduceShape r shape attrKey doc remainingPath prev =
      .error (.jsError "attrSchema.reduce is not a function") := by
  match shape with
  | .nil => simp [reduceShape, hp]
  | .cons k sub rest =>
    simp only [shapeKeys, List.mem_cons, not_or] at h
    have hk : ¬(k = attrKey) := fun hk => h.1 hk.symm
    simp only [reduceShape, if_neg hk]
    exact reduceShape_proto r attrKey doc remainingPath prev rest h.2 hp

/-- The shape walk of ObjectType.reduce never produces the empty map when
the accumulator is not the empty map. -/
theorem reduceShape_never_empty (r : Replica) (doc : DocEs5)
    (attrKey : String) (remainingPath : List String) (prev res : Option Value)
    (hprev : prev ≠ some (.vmap .nil)) (shape : Shape)
    (h : reduceShape r shape attrKey doc remainingPath prev = .ok res) :
    res ≠ some (.vmap .nil) := by
  match shape with
  | .nil =>
    simp only [reduceShape] at h
    split at h
    · exact absurd h (by simp)
    · simp only [Except.ok.injEq] at h
      exact h ▸ hprev
  | .cons k sub rest =>
    simp only [reduceShape] at h
    by_cases hk : k = attrKey
    · rw [if_pos hk] at h
      cases hm : reduceSchema r sub doc remainingPath
          ((entriesOf prev).lookup attrKey) with
      | error e => rw [hm] at h; exact absurd h (by simp)
      | ok v =>
        rw [hm] at h
        cases v with
        | none =>
          simp only [Except.ok.injEq] at h
          exact h ▸ collapse_ne_empty _
        | some w =>
          simp only [Except.ok.injEq] at h
          subst h
          simp only [ne_eq, Option.some.injEq, Value.vmap.injEq]
          exact Entries.set_ne_nil _ _ _
    · rw [if_neg hk] at h
      exact reduceShape_never_empty r doc attrKey remainingPath prev res hprev rest h

/-! ## C10: writing through a read-only Metadata node -/

/-- C10: for every replica, metadata reduce function, author, path and data
(including null), write on a Metadata node throws the read-only error; no
replica is produced, so no store mutation occurs, and the error reaches the
caller. -/
theorem c10_metadata_write_throws (r : Replica)
    (reduceFn : DocEs5 → List String → Option Value → Option Value)
    (author path : String) (data : Option Value) :
    writeSchema r (.metadataNode reduceFn) author path data =
      .error (.jsError "Attempted to write to a read-only metadata value") := by
  simp [writeSchema]

/-! ## C8: unknown keys and ObjectType.reduce -/

/-- C8 counterexample to the unrestricted claim: a document whose first
path segment is the undeclared key constructor — an Object.prototype
member name — makes ObjectType.reduce throw a TypeError (the inherited
lookup result is truthy but has no reduce method) instead of passing the
accumulated value through. -/
theorem c8_unknown_key_counterexample :
    reduceSchema ⟨[], []⟩ (.obj (.cons "title" stringAtom .nil))
      ⟨"/o/constructor", "hello", "es.5", none⟩ ["constructor"]
      (some (.vmap (.cons "title" (.vstr "t") .nil))) =
      .error (.jsError "attrSchema.reduce is not a function") ∧
    (Except.error (EsError.jsError "attrSchema.reduce is not a function") :
        Except EsError (Option Value)) ≠
      .ok (some (.vmap (.cons "title" (.vstr "t") .nil))) :=
  ⟨rfl, by simp⟩

/-- C8 (amended): for every Object reduce call whose first path segment
(or the self sigil when no segments remain) is not a declared field key of
the shape: when the segment is not one of the property names a plain
object inherits from Object.prototype, the accumulated value prev is
returned unchanged and no error is raised; when it is such an inherited
name (constructor, toString, valueOf, ...), the prototype-chained shape
lookup yields a truthy non-schema and reduce throws a TypeError. -/
theorem c8_object_reduce_unknown_key (r : Replica) (shape : Shape)
    (doc : DocEs5) (pathComponents : List String) (prev : Option Value)
    (h : pathComponents.headD SELF_SIGIL ∉ shapeKeys shape) :
    (pathComponents.headD SELF_SIGIL ∉ objectProtoProps →
      reduceSchema r (.obj shape) doc pathComponents prev = .ok prev) ∧
    (pathComponents.headD SELF_SIGIL ∈ objectProtoProps →
      reduceSchema r (.obj shape) doc pathComponents prev =
        .error (.jsError "attrSchema.reduce is not a function")) := by
  constructor
  · intro hp
    simp only [reduceSchema]
    exact reduceShape_not_mem r _ doc _ prev shape h hp
  · intro hp
    simp only [reduceSchema]
    exact reduceShape_proto r _ doc _ prev shape h hp

/-- C8 witness: below a one-field shape, a document at the undeclared key
zzz leaves the accumulated value unchanged, while one at the undeclared
Object.prototype name toString throws the TypeError. -/
theorem c8_object_reduce_unknown_key_witness :
    reduceSchema ⟨[], []⟩ (.obj (.cons "title" stringAtom .nil))
      ⟨"/o/zzz", "hello", "es.5", none⟩ ["zzz"]
      (some (.vmap (.cons "title" (.vstr "t") .nil))) =
      .ok (some (.vmap (.cons "title" (.vstr "t") .nil))) ∧
    reduceSchema ⟨[], []⟩ (.obj (.cons "title" stringAtom .nil))
      ⟨"/o/toString", "hello", "es.5", none⟩ ["toString"]
      (some (.vmap (.cons "title" (.vstr "t") .nil))) =
      .error (.jsError "attrSchema.reduce is not a function") :=
  ⟨(c8_object_reduce_unknown_key _ _ _ _ _
      (by simp [shapeKeys, SELF_SIGIL])).1 (by decide),
   (c8_object_reduce_unknown_key _ _ _ _ _
      (by simp [shapeKeys, SELF_SIGIL])).2 (by decide)⟩

/-! ## C5: composite reduce never returns an empty map -/

/-- C5: the reduce of Object and of Collection never returns an empty map:
whenever the accumulated value is not the empty map (it starts as null and
stays away from the empty map), the result of an Object reduce is not the
empty map, and the result of a Collection reduce is never the empty map for
any accumulated value; emptied maps collapse to null instead. -/
theorem c5_reduce_never_empty (r : Replica) (doc : DocEs5)
    (pathComponents : List String) (prev res : Option Value)
    (hprev : prev ≠ some (.vmap .nil)) :
    (∀ shape, reduceSchema r (.obj shape) doc pathComponents prev = .ok res →
      res ≠ some (.vmap .nil)) ∧
    (∀ inner, reduceSchema r (.coll inner) doc pathComponents prev = .ok res →
      res ≠ some (.vmap .nil)) := by
  constructor
  · intro shape h
    simp only [reduceSchema] at h
    exact reduceShape_never_empty r doc _ _ prev res hprev shape h
  · intro inner h
    simp only [reduceSchema] at h
    by_cases htext : doc.text = ""
    · rw [if_pos htext] at h
      simp only [Except.ok.injEq] at h
      exact h ▸ collapse_ne_empty _
    · rw [if_neg htext] at h
      cases hm : reduceSchema r inner doc pathComponents.tail
          ((entriesOf prev).lookup (match pathComponents.head? with
            | some rawKey => decodeURIComponent rawKey
            | none => "undefined")) with
      | error e => rw [hm] at h; exact absurd h (by simp)
      | ok v =>
        rw [hm] at h
        cases v with
        | none =>
          simp only [Except.ok.injEq] at h
          exact h ▸ collapse_ne_empty _
        | some w =>
          simp only [Except.ok.injEq] at h
          subst h
          simp only [ne_eq, Option.some.injEq, Value.vmap.injEq]
          exact Entries.set_ne_nil _ _ _

/-- C5 witness: a collection reduce of a fresh document produces a one-key
map, not the empty map. -/
theorem c5_reduce_never_empty_witness :
    (some (.vmap (.cons "k" (.vstr "x") .nil)) : Option Value) ≠
      some (.vmap .nil) :=
  (c5_reduce_never_empty ⟨[], []⟩ ⟨"/c/k", "x", "es.5", none⟩ ["k"] none _
      (by simp)).2 stringAtom rfl

/-! ## C7: attachment availability in AttachmentType.reduce -/

/-- C7 counterexample: a document that claims an attachment (it carries an
attachment hash) whose blob the store cannot supply does not make reduce
fail; the call silently reduces to null, contradicting the claim that an
error is always raised in that situation. -/
theorem c7_attachment_counterexample :
    getAttachment ⟨[], []⟩ ⟨"/img", "meta", "es.5", some "h1"⟩ = .ok none ∧
    reduceSchema ⟨[], []⟩ .attachmentNode ⟨"/img", "meta", "es.5", some "h1"⟩
      [] none = .ok none ∧
    ((Except.ok (none : Option Value) : Except EsError (Option Value)) ≠
      Except.error (.jsError "This document cannot have an attachment")) := by
  refine ⟨rfl, rfl, by simp⟩

/-- C7 amended: AttachmentType.reduce throws exactly when the store returns
an Error outcome for the fetch (it propagates that error unmodified); when
the store reports the attachment absent — including for a document that
claims one — the call silently reduces to null rather than failing; a
supplied blob reduces to the metadata text paired with the blob. -/
theorem c7_attachment_reduce (r : Replica) (doc : DocEs5)
    (pathComponents : List String) (prev : Option Value) :
    (∀ e, getAttachment r doc = .error e →
      reduceSchema r .attachmentNode doc pathComponents prev = .error e) ∧
    (getAttachment r doc = .ok none →
      reduceSchema r .attachmentNode doc pathComponents prev = .ok none) ∧
    (∀ content, getAttachment r doc = .ok (some content) →
      reduceSchema r .attachmentNode doc pathComponents prev =
        .ok (some (.vatt doc.text content))) := by
  refine ⟨fun e h => ?_, fun h => ?_, fun content h => ?_⟩ <;>
    simp only [reduceSchema, h]

/-- C7 witness: with an empty blob store, the fetch of a claiming document
reports absent and reduce returns null; a document without a claim yields
the Error outcome which reduce propagates. -/
theorem c7_attachment_reduce_witness :
    reduceSchema ⟨[], []⟩ .attachmentNode ⟨"/img", "meta", "es.5", some "h1"⟩
      [] none = .ok none ∧
    reduceSchema ⟨[], []⟩ .attachmentNode ⟨"/img", "meta", "es.5", none⟩
      [] none =
      .error (.jsError "This document cannot have an attachment") :=
  ⟨(c7_attachment_reduce ⟨[], []⟩ ⟨"/img", "meta", "es.5", some "h1"⟩ [] none).2.1 rfl,
   (c7_attachment_reduce ⟨[], []⟩ ⟨"/img", "meta", "es.5", none⟩ [] none).1 _ rfl⟩

/-! ## C6: live view behaviour on an unrecognized document format -/

/-- C6 counterexample: an open live view (snapshot present, event reader
held) that receives an upsert event whose document format is not es.5 stops
its event loop with the state unchanged: the snapshot is intact but
isClosed is still false — the view does not transition to Closed as the
claim states. -/
theorem c6_unsupported_format_counterexample :
    LiveQuery.runEvents
      ⟨stringAtom, "/a", "/a", ⟨[], []⟩, some (.vstr "x"), true⟩
      [⟨.success, ⟨"/a", "y", "es.4", none⟩⟩] =
      .ok ⟨stringAtom, "/a", "/a", ⟨[], []⟩, some (.vstr "x"), true⟩ ∧
    LiveQuery.isClosed
      ⟨stringAtom, "/a", "/a", ⟨[], []⟩, some (.vstr "x"), true⟩ = false ∧
    LiveQuery.snapshot
      ⟨stringAtom, "/a", "/a", ⟨[], []⟩, some (.vstr "x"), true⟩ =
      some (.vstr "x") :=
  ⟨rfl, rfl, rfl⟩

/-- C6 amended: when an upsert or expiry event with an unrecognized
document format arrives, the live view stops processing — the event and
everything after it are discarded and the whole state, in particular the
snapshot, is unchanged — but the event reader is not released, so isClosed
stays false; the view does not transition to the Closed state. -/
theorem c6_unsupported_format_stops (q : LiveQuery) (ev : ReplicaEvent)
    (rest : List ReplicaEvent)
    (hkind : ev.kind = .success ∨ ev.kind = .expire)
    (hfmt : ev.doc.format ≠ "es.5") :
    q.runEvents (ev :: rest) = .ok q := by
  rcases hkind with h | h <;> simp [LiveQuery.runEvents, h, hfmt]

/-- C6 witness: the amended behaviour at a concrete open view and event
sequence: the bad-format event freezes the view with isClosed still
false. -/
theorem c6_unsupported_format_stops_witness :
    LiveQuery.runEvents
      ⟨stringAtom, "/a", "/a", ⟨[], []⟩, some (.vstr "x"), true⟩
      [⟨.expire, ⟨"/a", "z", "es.6", none⟩⟩,
       ⟨.success, ⟨"/a", "w", "es.5", none⟩⟩] =
      .ok ⟨stringAtom, "/a", "/a", ⟨[], []⟩, some (.vstr "x"), true⟩ :=
  c6_unsupported_format_stops _ _ _ (Or.inr rfl) (by simp)

/-! ## C1: which documents EsType.read fetches -/

/-- C1: the claim fails on the code. getContentPrefix returns the path
unchanged when it does not end in a slash (the ternary in the source adds
the extra slash on the wrong side), so read queries documents whose paths
start with the requested path as a plain string. At the path "/a" against
a store holding documents at "/a" (text "x") and at the sibling "/ab"
(text "y"), the fetched fold input contains the root document twice and
the sibling document, and a string-atom read returns "y" — the text of
the sibling — instead of "x". The spec (and the earlier revision of read
quoted in the readme) prescribe the prefix path + "/", which would fetch
exactly the root document once. -/
theorem c1_read_string_prefix_bug :
    readFetchedDocs
      ⟨[⟨"/a", "x", "es.5", none⟩, ⟨"/ab", "y", "es.5", none⟩], []⟩ "/a" =
      [⟨"/a", "x", "es.5", none⟩, ⟨"/a", "x", "es.5", none⟩,
       ⟨"/ab", "y", "es.5", none⟩] ∧
    readSchema
      ⟨[⟨"/a", "x", "es.5", none⟩, ⟨"/ab", "y", "es.5", none⟩], []⟩
      stringAtom "/a" = .ok (some (.vstr "y")) ∧
    getContentPrefixPath "/a" = "/a" ∧
    getContentPrefixPath "/a/" = "/a//" :=
  ⟨rfl, rfl, rfl, rfl⟩

/-! ## C9: findByCollectionKey with the collection path option omitted -/

/-- C9: when the collectionPrefix option is omitted, findByCollectionKey
concatenates the JS undefined into the path ending, so it queries for paths
ending with the literal text undefined, a slash and the encoded key — in
general, for every key and store, the result is the paths ending in that
literal string with the ending stripped. Concretely, on the readme store
(two posts whose related sets contain the key "/posts/1"), omitting the
option returns nothing at all — not the paths of the collections — while
passing "/related" returns the owning posts. -/
theorem c9_findByCollectionKey_undefined :
    (∀ (key : String) (r : Replica),
      findByCollectionKey key r none none =
        (r.docs.filter (fun d =>
            jsEndsWith d.path ("undefined/" ++ encodeURIComponent key))).map
          (fun d => jsTake d.path
            (jsLength d.path -
              jsLength ("undefined/" ++ encodeURIComponent key)))) ∧
    findByCollectionKey "/posts/1"
      ⟨[⟨"/posts/1/title", "a", "es.5", none⟩,
        ⟨"/posts/2/related/%2Fposts%2F1", "1", "es.5", none⟩,
        ⟨"/posts/3/related/%2Fposts%2F1", "1", "es.5", none⟩], []⟩
      none (some "/posts/") = [] ∧
    findByCollectionKey "/posts/1"
      ⟨[⟨"/posts/1/title", "a", "es.5", none⟩,
        ⟨"/posts/2/related/%2Fposts%2F1", "1", "es.5", none⟩,
        ⟨"/posts/3/related/%2Fposts%2F1", "1", "es.5", none⟩], []⟩
      (some "/related") (some "/posts/") = ["/posts/2", "/posts/3"] := by
  refine ⟨fun key r => ?_, rfl, rfl⟩
  have h : ("undefined" : String) ++ ("/" ++ encodeURIComponent key) =
      "undefined/" ++ encodeURIComponent key := by
    rw [← String.append_assoc]
    rfl
  simp [findByCollectionKey, jsConcatUndef, queryPaths, matchesFilter,
    List.map_map, Function.comp, h]

/-! ## Confinement of writes (towards C4) -/

/-- A path outside a subtree differs from its root. -/
theorem ne_of_not_inSubtree (path q : String) (hq : ¬ inSubtree path q) :
    q ≠ path := fun h => hq (Or.inl h)

/-- A subtree wipe leaves paths outside the subtree untouched. -/
theorem wipeDocsUnderPath_confined (r : Replica) (p q : String)
    (hq : ¬ inSubtree p q) :
    docTextAt (wipeDocsUnderPath r p) q = docTextAt r q := by
  rw [docTextAt_wipeDocsUnderPath]
  have : ¬ ((q = p ∨ jsStartsWith q (p ++ "/") = true) ∧
      (docTextAt r q).isSome = true) := fun h => hq h.1
  rw [if_neg this]

/-- A single-document node writes at most its own path. -/
theorem singleDoc_write_point (r : Replica) (s : EsSchema)
    (author path : String) (data : Option Value) (r' : Replica) (q : String)
    (hs : isSingleDocSchema s = true)
    (hw : writeSchema r s author path data = .ok r') (hq : q ≠ path) :
    docTextAt r' q = docTextAt r q := by
  cases s with
  | atom encode decode =>
    cases data with
    | none =>
      simp only [writeSchema, Except.ok.injEq] at hw
      rw [← hw, docTextAt_replicaSet, if_neg hq]
    | some v =>
      simp only [writeSchema, Except.ok.injEq] at hw
      rw [← hw, docTextAt_replicaSet, if_neg hq]
  | obj shape => simp [isSingleDocSchema] at hs
  | coll inner => simp [isSingleDocSchema] at hs
  | metadataNode f => simp [writeSchema] at hw
  | attachmentNode =>
    cases data with
    | none =>
      simp only [writeSchema, Except.ok.injEq] at hw
      rw [← hw, docTextAt_wipeDocAtPath,
        if_neg (fun h => hq h.1)]
    | some v =>
      cases v <;>
        (simp only [writeSchema, Except.ok.injEq] at hw
         rw [← hw, docTextAt_replicaSet, if_neg hq])

mutual

/-- Writes of a schema node at a path only mutate documents inside the
subtree of that path. -/
theorem writeSchema_confined (r : Replica) (s : EsSchema)
    (author path : String) (data : Option Value) (r' : Replica) (q : String)
    (hw : writeSchema r s author path data = .ok r')
    (hq : ¬ inSubtree path q) :
    docTextAt r' q = docTextAt r q := by
  cases s with
  | atom encode decode =>
    cases data with
    | none =>
      simp only [writeSchema, Except.ok.injEq] at hw
      rw [← hw, docTextAt_replicaSet, if_neg (ne_of_not_inSubtree path q hq)]
    | some v =>
      simp only [writeSchema, Except.ok.injEq] at hw
      rw [← hw, docTextAt_replicaSet, if_neg (ne_of_not_inSubtree path q hq)]
  | obj shape =>
    cases data with
    | none =>
      simp only [writeSchema, Except.ok.injEq] at hw
      rw [← hw]
      exact wipeDocsUnderPath_confined r path q hq
    | some v =>
      simp only [writeSchema] at hw
      refine writeShape_untouched r shape author path v r' q hw ?_
      intro k sub hmem hpresent
      left
      exact fun hin => hq (inSubtree_fieldPath_trans path k q hin)
  | coll inner =>
    cases data with
    | none =>
      simp only [writeSchema, Except.ok.injEq] at hw
      rw [← hw]
      exact wipeDocsUnderPath_confined r path q hq
    | some v =>
      simp only [writeSchema] at hw
      exact writeCollEntries_confined r inner author path (entriesOf (some v))
        r' q hw hq
  | metadataNode f => simp [writeSchema] at hw
  | attachmentNode =>
    exact singleDoc_write_point r .attachmentNode author path data r' q rfl hw
      (ne_of_not_inSubtree path q hq)
termination_by (sizeOf s, 0)

/-- The field loop of an object write leaves a path untouched when every
present field either has it outside its subtree or is a single-document
field not written at it. -/
theorem writeShape_untouched (r : Replica) (shape : Shape)
    (author p : String) (v : Value) (r' : Replica) (q : String)
    (hw : writeShape r shape author p v = .ok r')
    (hq : ∀ k sub, (k, sub) ∈ shapeAssoc shape →
        ((entriesOf (some v)).lookup k).isSome = true →
        (¬ inSubtree (fieldPath p k) q ∨
          (isSingleDocSchema sub = true ∧ q ≠ fieldPath p k))) :
    docTextAt r' q = docTextAt r q := by
  cases shape with
  | nil =>
    simp only [writeShape, Except.ok.injEq] at hw
    rw [hw]
  | cons key sub rest =>
    simp only [writeShape] at hw
    split at hw
    · rename_i fieldVal hl
      split at hw
      · exact absurd hw (by simp)
      · rename_i r1 hws
        have hstep : docTextAt r1 q = docTextAt r q := by
          have hcert := hq key sub (List.mem_cons_self _ _) (by simp [hl])
          have hfp : (if key = SELF_SIGIL then p else p ++ "/" ++ key) =
              fieldPath p key := rfl
          rw [hfp] at hws
          rcases hcert with hout | ⟨hsingle, hne⟩
          · exact writeSchema_confined r sub author (fieldPath p key)
              (jsNullable fieldVal) r1 q hws hout
          · exact singleDoc_write_point r sub author (fieldPath p key)
              (jsNullable fieldVal) r1 q hsingle hws hne
        rw [← hstep]
        exact writeShape_untouched r1 rest author p v r' q hw
          (fun k s hmem hpres => hq k s (List.mem_cons_of_mem _ hmem) hpres)
    · exact writeShape_untouched r rest author p v r' q hw
        (fun k s hmem hpres => hq k s (List.mem_cons_of_mem _ hmem) hpres)
termination_by (sizeOf shape, 0)

/-- The entry loop of a collection write only mutates documents inside the
subtree of the collection path. -/
theorem writeCollEntries_confined (r : Replica) (inner : EsSchema)
    (author path : String) (es : Entries) (r' : Replica) (q : String)
    (hw : writeCollEntries r inner author path es = .ok r')
    (hq : ¬ inSubtree path q) :
    docTextAt r' q = docTextAt r q := by
  cases es with
  | nil =>
    simp only [writeCollEntries, Except.ok.injEq] at hw
    rw [hw]
  | cons key val rest =>
    simp only [writeCollEntries] at hw
    split at hw
    · exact absurd hw (by simp)
    · rename_i r1 hws
      have hstep : docTextAt r1 q = docTextAt r q :=
        writeSchema_confined r inner author _ (jsNullable val) r1 q hws
          (fun hin => hq (inSubtree_trans_field path (encodeURIComponent key) q hin))
      rw [← hstep]
      exact writeCollEntries_confined r1 inner author path rest r' q hw hq
termination_by (sizeOf inner, 1 + sizeOf es)

end

/-- Keys of the association view are declared keys. -/
theorem mem_shapeKeys_of_assoc (shape : Shape) (k : String) (sub : EsSchema)
    (h : (k, sub) ∈ shapeAssoc shape) : k ∈ shapeKeys shape := by
  cases shape with
  | nil => simp [shapeAssoc] at h
  | cons key s rest =>
    simp only [shapeAssoc, List.mem_cons, Prod.mk.injEq] at h
    rcases h with ⟨rfl, -⟩ | h
    · simp [shapeKeys]
    · simp only [shapeKeys, List.mem_cons]
      exact Or.inr (mem_shapeKeys_of_assoc rest k sub h)

/-! ## C4: object writes are partial updates -/

/-- Value of a digit character. -/
theorem digitChar_toNat : ∀ d : Nat, d < 10 → (digitChar d).toNat = 48 + d := by
  decide

/-- Digit strings denote their number. -/
theorem digitsToNat_append (xs : List Char) (c : Char) :
    digitsToNat (xs ++ [c]) = digitsToNat xs * 10 + (c.toNat - 48) := by
  unfold digitsToNat
  rw [List.foldl_append]
  rfl

/-- The digit expansion round-trips through parsing. -/
theorem digitsToNat_natDigitsAux :
    ∀ fuel n : Nat, n < 10 ^ fuel → digitsToNat (natDigitsAux fuel n) = n := by
  intro fuel
  induction fuel with
  | zero =>
    intro n hn
    interval_cases n
    rfl
  | succ f ih =>
    intro n hn
    by_cases h10 : n < 10
    · simp only [natDigitsAux, if_pos h10, digitsToNat, List.foldl_cons,
        List.foldl_nil, digitChar_toNat n h10]
      omega
    · simp only [natDigitsAux, if_neg h10]
      rw [digitsToNat_append, ih (n / 10) ?_, digitChar_toNat (n % 10) (by omega)]
      · omega
      · rw [pow_succ, Nat.mul_comm] at hn
        exact Nat.div_lt_of_lt_mul hn

/-- Every produced character is a decimal digit. -/
theorem natDigitsAux_digits :
    ∀ fuel n : Nat, ∀ c ∈ natDigitsAux fuel n, 48 ≤ c.toNat ∧ c.toNat ≤ 57 := by
  intro fuel
  induction fuel with
  | zero => intro n c hc; simp [natDigitsAux] at hc
  | succ f ih =>
    intro n c hc
    by_cases h10 : n < 10
    · simp only [natDigitsAux, if_pos h10, List.mem_singleton] at hc
      rw [hc, digitChar_toNat n h10]
      omega
    · simp only [natDigitsAux, if_neg h10, List.mem_append,
        List.mem_singleton] at hc
      rcases hc with hc | hc
      · exact ih (n / 10) c hc
      · rw [hc, digitChar_toNat (n % 10) (by omega)]
        omega

/-- Every natural is below the obvious power bound. -/
theorem lt_pow_fuel (n : Nat) : n < 10 ^ (n + 1) := by
  calc n < n + 1 := Nat.lt_succ_self n
    _ ≤ 10 ^ n + 1 := by
      rcases Nat.eq_zero_or_pos n with h | h
      · simp [h]
      · exact Nat.succ_le_succ (Nat.le_of_lt (Nat.lt_pow_self (by norm_num) n))
    _ ≤ 10 ^ (n + 1) := by
      have : 1 ≤ 10 ^ n := Nat.one_le_pow _ _ (by norm_num)
      calc 10 ^ n + 1 ≤ 10 ^ n + 10 ^ n * 9 := by omega
        _ = 10 ^ n * 10 := by ring
        _ = 10 ^ (n + 1) := (pow_succ 10 n).symm

/-- Parsing the decimal representation of a natural recovers it. -/
theorem digitsToNat_natToString (n : Nat) :
    digitsToNat (natToString n).data = n :=
  digitsToNat_natDigitsAux (n + 1) n (lt_pow_fuel n)

/-- The decimal representation never starts with a sign character. -/
theorem natToString_head_digit (n : Nat) (c : Char) (rest : List Char)
    (h : (natToString n).data = c :: rest) : 48 ≤ c.toNat ∧ c.toNat ≤ 57 := by
  have hmem : c ∈ (natToString n).data := by
    rw [h]
    exact List.mem_cons_self c rest
  exact natDigitsAux_digits (n + 1) n c hmem

/-- Round trip of the decimal-integer codec shared by the number and the
bigint atoms. -/
theorem parseJsInt_intToString (i : Int) : parseJsInt (intToString i) = i := by
  by_cases hneg : i < 0
  · unfold intToString
    rw [if_pos hneg]
    unfold parseJsInt
    split
    · rename_i rest heq
      rw [String.data_append] at heq
      have hdata : ("-" : String).data = ['-'] := rfl
      rw [hdata] at heq
      simp only [List.cons_append, List.nil_append, List.cons.injEq] at heq
      rw [← heq.2, digitsToNat_natToString]
      omega
    · rename_i hno
      exfalso
      refine hno (natToString i.natAbs).data ?_
      rw [String.data_append]
      rfl
  · unfold intToString
    rw [if_neg hneg]
    unfold parseJsInt
    split
    · rename_i rest heq
      exfalso
      have := natToString_head_digit i.toNat '-' rest heq
      simp at this
    · rename_i cs hno
      rw [digitsToNat_natToString]
      omega

/-! ## Atom write-read machinery (towards C2) -/

/-- Prefixing is reflexive. -/
theorem jsStartsWith_refl (s : String) : jsStartsWith s s = true := by
  rw [jsStartsWith_iff]

/-- A path prefixed by the slash-extension is prefixed by the base. -/
theorem jsStartsWith_of_slash (d p : String)
    (h : jsStartsWith d (p ++ "/") = true) : jsStartsWith d p = true := by
  rw [jsStartsWith_iff] at h ⊢
  refine List.IsPrefix.trans ?_ h
  rw [String.data_append]
  exact List.prefix_append _ _

/-- A path never starts with its own slash-extension. -/
theorem not_jsStartsWith_self_slash (p : String) :
    jsStartsWith p (p ++ "/") = false := by
  rw [← Bool.not_eq_true, jsStartsWith_iff]
  intro h
  have := h.length_le
  rw [String.data_append] at this
  simp at this

/-- Dropping the trailing slash of a slash-extension. -/
theorem dropTrailingSlash_append_slash (p : String) :
    dropTrailingSlash (p ++ "/") = p := by
  unfold dropTrailingSlash
  rw [if_pos ?_]
  · refine stringDataInj _ _ ?_
    rw [String.data_append]
    simp
  · rw [jsEndsWith, List.isSuffixOf_iff_suffix, String.data_append]
    exact List.suffix_append _ _

/-- A write followed by a read of an atom at the same path, on a store
with no document whose path has the written path as a string prefix,
returns the decoded encoding (null for the empty sentinel). -/
theorem writeRead_atom (r : Replica) (encode : Value → String)
    (decode : String → Value) (author p : String) (x : Value)
    (hr : ∀ d ∈ r.docs, jsStartsWith d.path p = false) :
    writeRead r (.atom encode decode) author p (some x) =
      .ok (if encode x = "" then none else some (decode (encode x))) := by
  have hnoAt : r.docs.any (fun d => d.path == p) = false := by
    rw [List.any_eq_false]
    intro d hd hdp
    have hdp' : d.path = p := by simpa using hdp
    have h2 := hr d hd
    rw [hdp', jsStartsWith_refl] at h2
    exact absurd h2 (by simp)
  have hset : replicaSet r p (encode x) none =
      { r with docs := r.docs ++ [{ path := p, text := encode x, attachmentHash := none }] } := by
    unfold replicaSet
    rw [hnoAt]
    simp
  have hroot : getLatestDocAtPath
      { r with docs := r.docs ++ [{ path := p, text := encode x, attachmentHash := none }] } p =
      some { path := p, text := encode x, attachmentHash := none } := by
    unfold getLatestDocAtPath
    rw [find?_concat]
    have hnone : r.docs.find? (fun d => d.path == p) = none := by
      rw [List.find?_eq_none]
      intro d hd hdp
      have hdp' : d.path = p := by simpa using hdp
      have h2 := hr d hd
      rw [hdp', jsStartsWith_refl] at h2
      exact absurd h2 (by simp)
    rw [hnone]
    simp
  unfold writeRead
  simp only [writeSchema]
  rw [hset]
  unfold readSchema readFetchedDocs
  by_cases hend : jsEndsWith p "/" = true
  · have hpfx : getContentPrefixPath p = p ++ "/" := by
      unfold getContentPrefixPath
      rw [if_pos hend]
    rw [hpfx, dropTrailingSlash_append_slash, hroot]
    have hcontents : queryDocs
        { r with docs := r.docs ++ [{ path := p, text := encode x, attachmentHash := none }] }
        (p ++ "/") = [] := by
      unfold queryDocs
      simp only [List.filter_append]
      rw [List.filter_eq_nil_iff.mpr ?_, List.filter_eq_nil_iff.mpr ?_]
      · rfl
      · intro d hd
        simp only [List.mem_singleton] at hd
        rw [hd]
        simp [not_jsStartsWith_self_slash]
      · intro d hd
        have h1 := hr d hd
        intro hcon
        rw [jsStartsWith_of_slash d.path p hcon] at h1
        exact absurd h1 (by simp)
    rw [hcontents]
    simp only [Option.toList_some, List.cons_append, List.nil_append]
    by_cases hx : encode x = "" <;> simp [hx, foldReadDocs, reduceSchema]
  · have hpfx : getContentPrefixPath p = p := by
      unfold getContentPrefixPath
      rw [if_neg hend]
    have hdrop : dropTrailingSlash p = p := by
      unfold dropTrailingSlash
      rw [if_neg hend]
    rw [hpfx, hdrop, hroot]
    have hcontents : queryDocs
        { r with docs := r.docs ++ [{ path := p, text := encode x, attachmentHash := none }] }
        p = [{ path := p, text := encode x, attachmentHash := none }] := by
      unfold queryDocs
      simp only [List.filter_append]
      rw [List.filter_eq_nil_iff.mpr ?_]
      · simp [jsStartsWith_refl]
      · intro d hd
        simp [hr d hd]
    rw [hcontents]
    simp only [Option.toList_some, List.cons_append, List.nil_append]
    by_cases hx : encode x = "" <;> simp [hx, foldReadDocs, reduceSchema]

/-! ## Calendar lemmas (towards the datetime round trip of C2) -/

/-- yearLen as a propositional conditional. -/
theorem yearLen_eq (y : Nat) :
    yearLen y = if y % 4 = 0 ∧ (y % 100 ≠ 0 ∨ y = 0) then 366 else 365 := by
  unfold yearLen isLeapYoe
  by_cases h : y % 4 = 0 ∧ (y % 100 ≠ 0 ∨ y = 0)
  · rw [if_pos ?_, if_pos h]
    simp only [Bool.and_eq_true, decide_eq_true_eq, Bool.or_eq_true,
      bne_iff_ne, ne_eq]
    exact ⟨h.1, h.2⟩
  · rw [if_neg ?_, if_neg h]
    simp only [Bool.and_eq_true, decide_eq_true_eq, Bool.or_eq_true,
      bne_iff_ne, ne_eq]
    exact h

/-- Closed form of the in-era year start offsets. -/
theorem yearStartSum_closed :
    ∀ y : Nat, y ≤ 400 →
      yearStartSum y = 365 * y + (y + 3) / 4 - (y + 99) / 100 + (y + 399) / 400 := by
  intro y
  induction y with
  | zero => intro _; rfl
  | succ n ih =>
    intro hy
    have hn := ih (by omega)
    rw [show yearStartSum (n + 1) = yearStartSum n + yearLen n from rfl, hn,
      yearLen_eq]
    by_cases h : n % 4 = 0 ∧ (n % 100 ≠ 0 ∨ n = 0)
    · rw [if_pos h]
      omega
    · rw [if_neg h]
      omega

/-- The era is 146097 days long. -/
theorem yearStartSum_400 : yearStartSum 400 = 146097 := by
  rw [yearStartSum_closed 400 (le_refl 400)]

/-- Year starts grow by the year length. -/
theorem yearStartSum_succ (y : Nat) :
    yearStartSum (y + 1) = yearStartSum y + yearLen y := rfl

/-- The year scan splits its input into a year start plus the day of year,
staying within its fuel. -/
theorem yearScan_spec :
    ∀ (fuel y rem : Nat),
      rem + yearStartSum y < yearStartSum (y + fuel) →
      yearStartSum (yearScan fuel y rem).1 + (yearScan fuel y rem).2 =
        yearStartSum y + rem ∧
      (yearScan fuel y rem).2 < yearLen (yearScan fuel y rem).1 ∧
      y ≤ (yearScan fuel y rem).1 ∧ (yearScan fuel y rem).1 < y + fuel := by
  intro fuel
  induction fuel with
  | zero =>
    intro y rem h
    simp only [Nat.add_zero] at h
    omega
  | succ f ih =>
    intro y rem h
    by_cases hrem : rem < yearLen y
    · simp only [yearScan, if_pos hrem]
      exact ⟨trivial, hrem, le_refl y, show y < y + (f + 1) by omega⟩
    · simp only [yearScan, if_neg hrem]
      have hstep : yearStartSum (y + 1) = yearStartSum y + yearLen y :=
        yearStartSum_succ y
      have hh : (rem - yearLen y) + yearStartSum (y + 1) <
          yearStartSum (y + 1 + f) := by
        rw [show y + 1 + f = y + (f + 1) from by omega]
        omega
      obtain ⟨h1, h2, h3, h4⟩ := ih (y + 1) (rem - yearLen y) hh
      exact ⟨by omega, h2, by omega, by omega⟩

/-- Month starts grow by the month length, from month one on. -/
theorem monthStartSum_succ (m : Nat) (leap : Bool) (hm : 1 ≤ m) :
    monthStartSum (m + 1) leap = monthStartSum m leap + monthLen m leap := by
  match m, hm with
  | n + 1, _ => rfl

/-- The month scan splits a day of year into a month start plus the day of
month, staying within its fuel. -/
theorem monthScan_spec :
    ∀ (fuel m rem : Nat) (leap : Bool), 1 ≤ m →
      rem + monthStartSum m leap < monthStartSum (m + fuel) leap →
      monthStartSum (monthScan fuel m rem leap).1 leap +
        (monthScan fuel m rem leap).2 = monthStartSum m leap + rem ∧
      (monthScan fuel m rem leap).2 <
        monthLen (monthScan fuel m rem leap).1 leap ∧
      m ≤ (monthScan fuel m rem leap).1 ∧
      (monthScan fuel m rem leap).1 < m + fuel := by
  intro fuel
  induction fuel with
  | zero =>
    intro m rem leap hm h
    simp only [Nat.add_zero] at h
    omega
  | succ f ih =>
    intro m rem leap hm h
    by_cases hrem : rem < monthLen m leap
    · simp only [monthScan, if_pos hrem]
      exact ⟨trivial, hrem, le_refl m, show m < m + (f + 1) by omega⟩
    · simp only [monthScan, if_neg hrem]
      have hstep := monthStartSum_succ m leap hm
      have hh : (rem - monthLen m leap) + monthStartSum (m + 1) leap <
          monthStartSum (m + 1 + f) leap := by
        rw [show m + 1 + f = m + (f + 1) from by omega]
        omega
      obtain ⟨h1, h2, h3, h4⟩ := ih (m + 1) (rem - monthLen m leap) leap
        (by omega) hh
      exact ⟨by omega, h2, by omega, by omega⟩

/-- Twelve months make the year. -/
theorem monthStartSum_13 (leap : Bool) :
    monthStartSum 13 leap = if leap then 366 else 365 := by
  cases leap <;> rfl

/-- The month table agrees with the year length. -/
theorem yearLen_eq_monthSum (y : Nat) :
    yearLen y = monthStartSum 13 (isLeapYoe y) := by
  unfold yearLen
  rw [monthStartSum_13]

/-- No month is longer than 31 days. -/
theorem monthLen_le_31 (m : Nat) (leap : Bool) : monthLen m leap ≤ 31 := by
  unfold monthLen
  split <;> first | omega | (split <;> omega)

/-- Months are at least one day long. -/
theorem monthLen_pos (m : Nat) (leap : Bool) : 1 ≤ monthLen m leap := by
  unfold monthLen
  split <;> first | omega | (split <;> omega)

/-- The calendar decomposition inverts the day count, with the field bounds
the ISO format relies on. -/
theorem daysFromCivil_civilFromDays (z : Int)
    (h1 : -100000000 ≤ z) (h2 : z ≤ 100000000) :
    daysFromCivil (civilFromDays z).1 (civilFromDays z).2.1
      (civilFromDays z).2.2 = z ∧
    1 ≤ (civilFromDays z).2.1 ∧ (civilFromDays z).2.1 ≤ 12 ∧
    1 ≤ (civilFromDays z).2.2 ∧ (civilFromDays z).2.2 ≤ 31 ∧
    -272000 ≤ (civilFromDays z).1 ∧ (civilFromDays z).1 ≤ 275999 := by
  have hdoeLt : ((z + 719528) % 146097).toNat < 146097 := by omega
  have hdoeInt : (((z + 719528) % 146097).toNat : Int) = (z + 719528) % 146097 := by
    omega
  have hf := yearScan_spec 400 0 ((z + 719528) % 146097).toNat
    (by
      rw [show (0 + 400) = 400 from rfl, yearStartSum_400,
        show yearStartSum 0 = 0 from rfl]
      omega)
  obtain ⟨yoe, doy, hyd⟩ :
      ∃ a b, yearScan 400 0 ((z + 719528) % 146097).toNat = (a, b) :=
    ⟨_, _, rfl⟩
  rw [hyd] at hf
  dsimp only at hf
  obtain ⟨hf1, hf2, -, hf4⟩ := hf
  rw [show yearStartSum 0 = 0 from rfl] at hf1
  have hmScan := monthScan_spec 12 1 doy (isLeapYoe yoe) (le_refl 1)
    (by
      rw [show (1 + 12) = 13 from rfl, ← yearLen_eq_monthSum,
        show monthStartSum 1 (isLeapYoe yoe) = 0 from rfl]
      omega)
  obtain ⟨m, dom, hmd⟩ : ∃ a b, monthScan 12 1 doy (isLeapYoe yoe) = (a, b) :=
    ⟨_, _, rfl⟩
  rw [hmd] at hmScan
  dsimp only at hmScan
  obtain ⟨hm1, hm2, hm3, hm4⟩ := hmScan
  rw [show monthStartSum 1 (isLeapYoe yoe) = 0 from rfl] at hm1
  have hmlen := monthLen_le_31 m (isLeapYoe yoe)
  have hciv : civilFromDays z =
      ((z + 719528) / 146097 * 400 + (yoe : Int), m, dom + 1) := by
    simp [civilFromDays, epochShift, hyd, hmd]
  rw [hciv]
  dsimp only
  have hYdiv : ((z + 719528) / 146097 * 400 + (yoe : Int)) / 400 =
      (z + 719528) / 146097 := by omega
  have hYmod : (((z + 719528) / 146097 * 400 + (yoe : Int)) % 400).toNat =
      yoe := by omega
  refine ⟨?_, by omega, by omega, by omega, by omega, by omega, by omega⟩
  simp only [daysFromCivil, epochShift, hYdiv, hYmod]
  have hrec : yearStartSum yoe + (monthStartSum m (isLeapYoe yoe) +
      (dom + 1 - 1)) = ((z + 719528) % 146097).toNat := by omega
  rw [hrec]
  omega

/-! ## ISO 8601 parsing lemmas (towards the datetime round trip of C2) -/

/-- Fixed-width padding has the declared width. -/
theorem padDigits_length : ∀ (w n : Nat), (padDigits w n).length = w := by
  intro w
  induction w with
  | zero => intro n; rfl
  | succ k ih =>
    intro n
    simp only [padDigits, List.length_append, List.length_singleton, ih]

/-- Every padded character is a decimal digit. -/
theorem padDigits_digits :
    ∀ (w n : Nat), ∀ c ∈ padDigits w n, 48 ≤ c.toNat ∧ c.toNat ≤ 57 := by
  intro w
  induction w with
  | zero => intro n c hc; simp [padDigits] at hc
  | succ k ih =>
    intro n c hc
    simp only [padDigits, List.mem_append, List.mem_singleton] at hc
    rcases hc with hc | hc
    · exact ih (n / 10) c hc
    · rw [hc, digitChar_toNat (n % 10) (by omega)]
      omega

/-- Parsing a zero-padded field recovers the value. -/
theorem digitsToNat_padDigits :
    ∀ (w n : Nat), n < 10 ^ w → digitsToNat (padDigits w n) = n := by
  intro w
  induction w with
  | zero =>
    intro n hn
    interval_cases n
    rfl
  | succ k ih =>
    intro n hn
    rw [show padDigits (k + 1) n = padDigits k (n / 10) ++ [digitChar (n % 10)]
        from rfl,
      digitsToNat_append, ih (n / 10) ?_, digitChar_toNat (n % 10) (by omega)]
    · omega
    · rw [pow_succ, Nat.mul_comm] at hn
      exact Nat.div_lt_of_lt_mul hn

/-- takeDigits consumes exactly the listed characters, folding them onto
the accumulator. -/
theorem takeDigits_go :
    ∀ (ds rest : List Char) (acc : Nat),
      takeDigits ds.length acc (ds ++ rest) =
        (ds.foldl (fun a c => a * 10 + (c.toNat - 48)) acc, rest) := by
  intro ds
  induction ds with
  | nil => intro rest acc; rfl
  | cons c ds ih =>
    intro rest acc
    rw [List.length_cons, List.cons_append,
      show takeDigits (ds.length + 1) acc (c :: (ds ++ rest)) =
        takeDigits ds.length (acc * 10 + (c.toNat - 48)) (ds ++ rest) from rfl,
      ih rest (acc * 10 + (c.toNat - 48)), List.foldl_cons]

/-- Reading a padded field off the front of a character stream. -/
theorem takeDigits_pad (w n : Nat) (hn : n < 10 ^ w) (rest : List Char) :
    takeDigits w 0 (padDigits w n ++ rest) = (n, rest) := by
  have h := takeDigits_go (padDigits w n) rest 0
  rw [padDigits_length] at h
  rw [h]
  have hfold : (padDigits w n).foldl (fun a c => a * 10 + (c.toNat - 48)) 0 =
      digitsToNat (padDigits w n) := rfl
  rw [hfold, digitsToNat_padDigits w n hn]

/-- Parsing the fixed ISO layout recovers each padded field. -/
theorem parseISOBody_pad (neg : Bool) (yd yn M D hh mi ss msf : Nat)
    (hy : yn < 10 ^ yd) (hM : M < 100) (hD : D < 100) (hhh : hh < 100)
    (hmi : mi < 100) (hss : ss < 100) (hmsf : msf < 1000) :
    parseISOBody neg yd
      (padDigits yd yn ++ '-' :: (padDigits 2 M ++ '-' :: (padDigits 2 D ++
        'T' :: (padDigits 2 hh ++ ':' :: (padDigits 2 mi ++ ':' :: (padDigits 2 ss ++
        '.' :: (padDigits 3 msf ++ ['Z']))))))) =
      daysFromCivil (if neg then -(yn : Int) else (yn : Int)) M D * 86400000 +
        ((hh * 3600000 + mi * 60000 + ss * 1000 + msf : Nat) : Int) := by
  have e1 := takeDigits_pad yd yn hy
  have e2 := takeDigits_pad 2 M (lt_of_lt_of_le hM (by norm_num))
  have e3 := takeDigits_pad 2 D (lt_of_lt_of_le hD (by norm_num))
  have e4 := takeDigits_pad 2 hh (lt_of_lt_of_le hhh (by norm_num))
  have e5 := takeDigits_pad 2 mi (lt_of_lt_of_le hmi (by norm_num))
  have e6 := takeDigits_pad 2 ss (lt_of_lt_of_le hss (by norm_num))
  have e7 := takeDigits_pad 3 msf (lt_of_lt_of_le hmsf (by norm_num))
  simp only [parseISOBody, e1, e2, e3, e4, e5, e6, e7, skipSep]

/-- An ISO string starting with a digit parses in the four-digit-year
format. -/
theorem parseISODate_digit (s : String) (c : Char) (R : List Char)
    (hd : s.data = c :: R) (h48 : 48 ≤ c.toNat) :
    parseISODate s = parseISOBody false 4 (c :: R) := by
  have hm : c ≠ '-' := by
    intro h
    rw [h] at h48
    exact absurd h48 (by decide)
  have hp : c ≠ '+' := by
    intro h
    rw [h] at h48
    exact absurd h48 (by decide)
  unfold parseISODate
  rw [hd]
  split
  · rename_i rest heq
    injection heq with h1 h2
    exact absurd h1 hm
  · rename_i rest heq
    injection heq with h1 h2
    exact absurd h1 hp
  · rfl

/-- An ISO string starting with a minus sign parses in the expanded
negative-year format. -/
theorem parseISODate_minus (s : String) (R : List Char)
    (hd : s.data = '-' :: R) : parseISODate s = parseISOBody true 6 R := by
  unfold parseISODate
  rw [hd]
  split
  · rename_i rest heq
    injection heq with h1 h2
    rw [h2]
  · rename_i rest heq
    injection heq with h1 h2
    exact absurd h1 (by decide)
  · rename_i h1 h2
    exact (h1 R rfl).elim

/-- An ISO string starting with a plus sign parses in the expanded
positive-year format. -/
theorem parseISODate_plus (s : String) (R : List Char)
    (hd : s.data = '+' :: R) : parseISODate s = parseISOBody false 6 R := by
  unfold parseISODate
  rw [hd]
  split
  · rename_i rest heq
    injection heq with h1 h2
    exact absurd h1 (by decide)
  · rename_i rest heq
    injection heq with h1 h2
    rw [h2]
  · rename_i h1 h2
    exact (h2 R rfl).elim

/-- Parsing the printed ISO string of a valid time value recovers it. -/
theorem parseISO_toISO (ms : Int)
    (hlo : -8640000000000000 ≤ ms) (hhi : ms ≤ 8640000000000000) :
    parseISODate (toISOString ms) = ms := by
  obtain ⟨Y, M, D, hciv⟩ : ∃ a b c, civilFromDays (ms / 86400000) = (a, b, c) :=
    ⟨_, _, _, rfl⟩
  have hcal := daysFromCivil_civilFromDays (ms / 86400000) (by omega) (by omega)
  rw [hciv] at hcal
  dsimp only at hcal
  obtain ⟨hround, hM1, hM2, hD1, hD2, hY1, hY2⟩ := hcal
  have hmsod : ((ms % 86400000).toNat) < 86400000 := by omega
  have hdata : (toISOString ms).data =
      yearChars Y ++ '-' :: (padDigits 2 M ++ '-' :: (padDigits 2 D ++
        'T' :: (padDigits 2 ((ms % 86400000).toNat / 3600000) ++
        ':' :: (padDigits 2 ((ms % 86400000).toNat / 60000 % 60) ++
        ':' :: (padDigits 2 ((ms % 86400000).toNat / 1000 % 60) ++
        '.' :: (padDigits 3 ((ms % 86400000).toNat % 1000) ++ ['Z'])))))) := by
    simp only [toISOString, hciv, List.append_assoc, List.cons_append]
  by_cases hY : 0 ≤ Y ∧ Y ≤ 9999
  · have hYc : yearChars Y = padDigits 4 Y.toNat := by
      unfold yearChars
      rw [if_pos hY]
    obtain ⟨c, cs0, hpd⟩ : ∃ c cs, padDigits 4 Y.toNat = c :: cs := by
      cases h4 : padDigits 4 Y.toNat with
      | nil =>
        have hl := padDigits_length 4 Y.toNat
        rw [h4] at hl
        simp at hl
      | cons c cs => exact ⟨c, cs, rfl⟩
    have hc48 : 48 ≤ c.toNat := by
      have hmem : c ∈ padDigits 4 Y.toNat := by
        rw [hpd]
        exact List.mem_cons_self c cs0
      exact (padDigits_digits 4 Y.toNat c hmem).1
    rw [hYc, hpd, List.cons_append] at hdata
    rw [parseISODate_digit (toISOString ms) c _ hdata hc48,
      ← List.cons_append, ← hpd]
    have hy4 : Y.toNat < 10 ^ 4 := by
      have h10 : (10 : Nat) ^ 4 = 10000 := by norm_num
      omega
    rw [parseISOBody_pad false 4 Y.toNat M D _ _ _ _ hy4 (by omega) (by omega)
      (by omega) (by omega) (by omega) (by omega)]
    rw [if_neg Bool.false_ne_true, Int.toNat_of_nonneg hY.1, hround]
    omega
  · by_cases hYneg : Y < 0
    · have hYc : yearChars Y = '-' :: padDigits 6 Y.natAbs := by
        unfold yearChars
        rw [if_neg hY, if_pos hYneg]
      rw [hYc, List.cons_append] at hdata
      rw [parseISODate_minus (toISOString ms) _ hdata]
      have hy6 : Y.natAbs < 10 ^ 6 := by
        have h10 : (10 : Nat) ^ 6 = 1000000 := by norm_num
        omega
      rw [parseISOBody_pad true 6 Y.natAbs M D _ _ _ _ hy6 (by omega) (by omega)
        (by omega) (by omega) (by omega) (by omega)]
      rw [if_pos rfl]
      have hyv : -((Y.natAbs : Int)) = Y := by omega
      rw [hyv, hround]
      omega
    · have hYc : yearChars Y = '+' :: padDigits 6 Y.natAbs := by
        unfold yearChars
        rw [if_neg hY, if_neg hYneg]
      rw [hYc, List.cons_append] at hdata
      rw [parseISODate_plus (toISOString ms) _ hdata]
      have hy6 : Y.natAbs < 10 ^ 6 := by
        have h10 : (10 : Nat) ^ 6 = 1000000 := by norm_num
        omega
      rw [parseISOBody_pad false 6 Y.natAbs M D _ _ _ _ hy6 (by omega) (by omega)
        (by omega) (by omega) (by omega) (by omega)]
      rw [if_neg Bool.false_ne_true]
      have hyv : ((Y.natAbs : Int)) = Y := by omega
      rw [hyv, hround]
      omega

/-! ## Non-emptiness of the atom encodings -/

/-- Decimal representations are never empty. -/
theorem natToString_ne_empty (n : Nat) : natToString n ≠ "" := by
  intro h
  have h2 : (natToString n).data = [] := by rw [h]
  unfold natToString at h2
  by_cases h10 : n < 10 <;> simp [natDigitsAux, h10] at h2

/-- Signed decimal representations are never empty. -/
theorem intToString_ne_empty (i : Int) : intToString i ≠ "" := by
  unfold intToString
  split
  · intro h
    have h2 : (("-" : String) ++ natToString i.natAbs).data = [] := by
      rw [h]
    rw [String.data_append] at h2
    simp at h2
  · exact natToString_ne_empty i.toNat

/-- ISO strings are never empty. -/
theorem toISOString_ne_empty (t : Int) : toISOString t ≠ "" := by
  intro h
  have h2 : (toISOString t).data = [] := by rw [h]
  simp only [toISOString] at h2
  simp at h2

/-- C2 (amended): on a store holding no document whose path has the target
path as a string prefix, writing an atomic value then reading the same path
returns the value for every non-empty string, every number on the JS
safe-integer grid, every bigint, both booleans, and every valid date-time;
writing the empty string stores the absent sentinel and reads back as
null. -/
theorem c2_atomic_round_trip (r : Replica) (author p : String)
    (hr : ∀ d ∈ r.docs, jsStartsWith d.path p = false) :
    (∀ s : String, s ≠ "" →
      writeRead r stringAtom author p (some (.vstr s)) = .ok (some (.vstr s))) ∧
    writeRead r stringAtom author p (some (.vstr "")) = .ok none ∧
    (∀ n : Int, -9007199254740991 ≤ n → n ≤ 9007199254740991 →
      writeRead r numberAtom author p (some (.vnum n)) = .ok (some (.vnum n))) ∧
    (∀ n : Int,
      writeRead r bigintAtom author p (some (.vbig n)) = .ok (some (.vbig n))) ∧
    (∀ b : Bool,
      writeRead r booleanAtom author p (some (.vbool b)) = .ok (some (.vbool b))) ∧
    (∀ t : Int, -8640000000000000 ≤ t → t ≤ 8640000000000000 →
      writeRead r datetimeAtom author p (some (.vdate t)) =
        .ok (some (.vdate t))) := by
  refine ⟨?_, ?_, ?_, ?_, ?_, ?_⟩
  · intro s hs
    unfold stringAtom
    rw [writeRead_atom r _ _ author p _ hr]
    simp [hs]
  · unfold stringAtom
    rw [writeRead_atom r _ _ author p _ hr]
    simp
  · intro n hn1 hn2
    unfold numberAtom
    rw [writeRead_atom r _ _ author p _ hr]
    simp [intToString_ne_empty, parseJsInt_intToString]
  · intro n
    unfold bigintAtom
    rw [writeRead_atom r _ _ author p _ hr]
    simp [intToString_ne_empty, parseJsInt_intToString]
  · intro b
    unfold booleanAtom
    rw [writeRead_atom r _ _ author p _ hr]
    cases b <;> simp
  · intro t ht1 ht2
    unfold datetimeAtom
    rw [writeRead_atom r _ _ author p _ hr]
    simp [toISOString_ne_empty, parseISO_toISO t ht1 ht2]

/-- C2 witness: the round trip evaluated at concrete boundary values on the
fresh store. -/
theorem c2_atomic_round_trip_witness :
    writeRead ⟨[], []⟩ stringAtom "a" "/s" (some (.vstr "hi")) =
      .ok (some (.vstr "hi")) ∧
    writeRead ⟨[], []⟩ stringAtom "a" "/s" (some (.vstr "")) = .ok none ∧
    writeRead ⟨[], []⟩ numberAtom "a" "/s" (some (.vnum (-5))) =
      .ok (some (.vnum (-5))) ∧
    writeRead ⟨[], []⟩ bigintAtom "a" "/s"
        (some (.vbig 123456789012345678901234567890)) =
      .ok (some (.vbig 123456789012345678901234567890)) ∧
    writeRead ⟨[], []⟩ booleanAtom "a" "/s" (some (.vbool true)) =
      .ok (some (.vbool true)) ∧
    writeRead ⟨[], []⟩ booleanAtom "a" "/s" (some (.vbool false)) =
      .ok (some (.vbool false)) ∧
    writeRead ⟨[], []⟩ datetimeAtom "a" "/s" (some (.vdate 1760000000000)) =
      .ok (some (.vdate 1760000000000)) :=
  have h := c2_atomic_round_trip ⟨[], []⟩ "a" "/s" (by intro d hd; simp at hd)
  ⟨h.1 "hi" (by decide), h.2.1,
   h.2.2.1 (-5) (by decide) (by decide),
   h.2.2.2.1 123456789012345678901234567890,
   h.2.2.2.2.1 true, h.2.2.2.2.1 false,
   h.2.2.2.2.2 1760000000000 (by decide) (by decide)⟩

/-- C2 counterexample to the unrestricted claim: writing the empty string
and reading it back returns null, not the empty string. -/
theorem c2_round_trip_counterexample :
    writeRead ⟨[], []⟩ stringAtom "a" "/s" (some (.vstr "")) = .ok none ∧
    (Except.ok none : Except EsError (Option Value)) ≠
      .ok (some (.vstr "")) := by
  constructor
  · have hw : writeSchema ⟨[], []⟩ stringAtom "a" "/s" (some (.vstr "")) =
        .ok ⟨[{ path := "/s", text := "" }], []⟩ := by
      simp [writeSchema, stringAtom, replicaSet]
    unfold writeRead
    rw [hw]
    rfl
  · simp

end EarthstarData
